import Mathlib

/-!
Verification development for the `cloudflare-worker-search-proxy-cache`
repository.  The definitions below are a shallow embedding of the worker
source (`src/unnamed/part_002`, the current `src/index.ts`): the request
classifier, the query validator, the origin policy, the cache-key
synthesizer, the multi-host upstream dispatcher and the main `fetch`
pipeline.  JavaScript strings are modelled as Lean `String`
(UTF-16 lengths are computed explicitly where the source uses `.length`),
`URLSearchParams` as an ordered association list, and the Cloudflare cache
and the network as explicit oracles passed into the pipeline.
-/

namespace SearchProxy

/-- A JavaScript value that can sit in the `query` field of one search
request item.  `undefined` stands for an absent field.  Only the shapes the
worker's validator can distinguish are modelled (strings, `null`, numbers,
booleans); objects would behave like truthy non-strings and add nothing. -/
inductive QueryField
  | undefined
  | null
  | str (s : String)
  | num (n : Int)
  | boolean (b : Bool)
deriving DecidableEq, Repr

/-- JavaScript truthiness of a `QueryField` value (`if (queryValue)`). -/
def QueryField.truthy : QueryField → Bool
  | .undefined => false
  | .null => false
  | .str s => s ≠ ""
  | .num n => n ≠ 0
  | .boolean b => b

/-- JavaScript `String(queryValue)` conversion. -/
def QueryField.jsToString : QueryField → String
  | .undefined => "undefined"
  | .null => "null"
  | .str s => s
  | .num n => toString n
  | .boolean b => if b then "true" else "false"

/-- The source's all-empty test on one item:
`req.query === "" || req.query === undefined`. -/
def QueryField.isEmptyOrUndefined : QueryField → Bool
  | .undefined => true
  | .str s => s = ""
  | _ => false

/-- One element of the batched search payload (`SearchRequest` in the
source); only the `query` field is ever inspected by the worker. -/
structure SearchRequestItem where
  query : QueryField
deriving DecidableEq, Repr

/-- UTF-16 code-unit length of a string, as JavaScript's `.length`
computes it (astral code points count as a surrogate pair). -/
def jsLength (s : String) : Nat :=
  s.data.foldl (fun acc c => acc + (if 0x10000 ≤ c.toNat then 2 else 1)) 0

/-- Model of `s.substring(0, n)`: keep a prefix of at most `n` UTF-16
code units (a char whose pair does not fit is dropped). -/
def jsSubstringTo (n : Nat) (s : String) : String :=
  ⟨go n s.data⟩
where
  go : Nat → List Char → List Char
    | _, [] => []
    | 0, _ => []
    | budget, c :: rest =>
      let w := if 0x10000 ≤ c.toNat then 2 else 1
      if w ≤ budget then c :: go (budget - w) rest else []

/-- Code points listed literally in `ALLOWED_QUERY_REGEX` beyond its two
ranges `\x20-\x7E` and `\xA0-\xFF`. -/
def allowedExtraCodePoints : List Nat :=
  [0x100, 0x101, 0x10C, 0x10D, 0x112, 0x113, 0x119, 0x131, 0x142,
   0x14C, 0x14D, 0x160, 0x161, 0x16A, 0x16B, 0x1DD, 0x2D0, 0x401,
   0x451, 0x1D56, 0x1D58, 0x1E9E, 0x2012, 0x2013, 0x201A, 0x201E,
   0x2022, 0x2026, 0x2039, 0x203A, 0x20AC, 0x2122, 0x2205, 0x221A,
   0x2234, 0x2300, 0x23A5, 0x24C7, 0x2605, 0x2665]

/-- Membership in the character class of `ALLOWED_QUERY_REGEX`. -/
def allowedQueryChar (c : Char) : Bool :=
  (0x20 ≤ c.toNat && c.toNat ≤ 0x7E) ||
  (0xA0 ≤ c.toNat && c.toNat ≤ 0xFF) ||
  allowedExtraCodePoints.contains c.toNat

/-- Model of `ALLOWED_QUERY_REGEX.test q` for the anchored pattern `^[...]+$`:
the string is non-empty and every character lies in the class.  (All the
class members are BMP code points; an astral input code point is a
surrogate pair in JavaScript, neither half of which is in the class, and
here a single char outside the class — both sides reject it.) -/
def allowedQueryTest (q : String) : Bool :=
  q ≠ "" && q.data.all allowedQueryChar

/-- The three validation rejection kinds (`ValidationErrorType`). -/
inductive ValidationErrorType
  | too_short
  | invalid_characters
  | malformed_json
deriving DecidableEq, Repr

/-- Result record of `isInvalidQuery`. -/
structure QueryValidation where
  invalid : Bool
  errorType : Option ValidationErrorType
  query : Option String
deriving DecidableEq, Repr

/-- The `too_short` result built at the end of `isInvalidQuery`'s loop:
`requests.find((r) => r.query)?.query?.toString().substring(0, 100)`. -/
def tooShortResult (requests : List SearchRequestItem) : QueryValidation :=
  { invalid := true
    errorType := some .too_short
    query := (requests.find? (fun r => r.query.truthy)).map
      (fun r => jsSubstringTo 100 r.query.jsToString) }

/-- The scanning loop of `isInvalidQuery`, with the `hasLongQuery`
accumulator;  `orig` is the full `requests` array used to build the
`too_short` report. -/
def isInvalidQueryLoop (orig : List SearchRequestItem) :
    List SearchRequestItem → Bool → QueryValidation
  | [], hasLongQuery =>
    if hasLongQuery then { invalid := false, errorType := none, query := none }
    else tooShortResult orig
  | req :: rest, hasLongQuery =>
    if req.query.truthy then
      let query := req.query.jsToString
      let hasLongQuery := hasLongQuery || decide (3 ≤ jsLength query)
      if !allowedQueryTest query then
        { invalid := true
          errorType := some .invalid_characters
          query := some (jsSubstringTo 100 query) }
      else isInvalidQueryLoop orig rest hasLongQuery
    else isInvalidQueryLoop orig rest hasLongQuery

/-- The source's `isInvalidQuery`: accept an all-empty batch, otherwise
scan every item, rejecting on a character-class violation immediately and
on the absence of any long query at the end. -/
def isInvalidQuery (requests : List SearchRequestItem) : QueryValidation :=
  if requests.all (fun req => req.query.isEmptyOrUndefined) then
    { invalid := false, errorType := none, query := none }
  else
    isInvalidQueryLoop requests requests false

/-! ### HTTP responses and body parsing -/

/-- A response body.  `errJson` stands for `JSON.stringify` of an
`ErrorDetail` object, keeping the claim-relevant fields (`error`,
`errorType`, `details`); the `timestamp` and the `algolia_*` debugging
fields of the source are real-time/diagnostic data not modelled.  `raw`
covers upstream payloads and plain-text bodies. -/
inductive RespBody
  | raw (s : String)
  | errJson (error : String) (errorType : String) (details : Option String)
deriving DecidableEq, Repr

/-- A modelled `Response`. -/
structure Resp where
  status : Nat
  body : RespBody
  headers : List (String × String)
deriving DecidableEq, Repr

/-- Model of `Response.ok`: status in the inclusive range 200–299. -/
def Resp.ok (r : Resp) : Bool := 200 ≤ r.status && r.status ≤ 299

/-- The decoded JSON stage of a POST body: either `request.json()` threw
(malformed JSON, with the parse error message), or it produced an object
whose `requests` field is absent or an array of items. -/
inductive RequestBody
  | malformed (msg : String)
  | jsonBody (requests : Option (List SearchRequestItem))
deriving DecidableEq, Repr

/-- The source's `parseRequestBody`: a 400 error `Response` or the accepted body. -/
def parseRequestBody (b : RequestBody) :
    Except Resp (Option (List SearchRequestItem)) :=
  match b with
  | .malformed msg =>
    .error
      { status := 400
        body := .errJson "Malformed JSON body" "malformed_json" (some msg)
        headers := [("Content-Type", "application/json")] }
  | .jsonBody requests? =>
    match requests? with
    | some requests =>
      let validation := isInvalidQuery requests
      if validation.invalid then
        let errorType := validation.errorType.getD .invalid_characters
        .error
          { status := 400
            body := .errJson
              (if errorType = .too_short then
                "Query too short (minimum 3 characters)"
               else "Query contains invalid characters")
              (match errorType with
               | .too_short => "too_short"
               | .invalid_characters => "invalid_characters"
               | .malformed_json => "malformed_json")
              (validation.query.map (fun q => "Query: \"" ++ q ++ "\""))
            headers := [("Content-Type", "application/json")] }
      else .ok requests?
    | none => .ok requests?

/-! ### URLSearchParams and URL serialization

`URLSearchParams` is an ordered list of name/value pairs.  `toString`
serializes it with the `application/x-www-form-urlencoded` rules: ASCII
alphanumerics and `*-._` pass through, the space becomes `+`, every other
character is percent-encoded byte-wise from its UTF-8 encoding with
uppercase hex digits. -/

abbrev Params := List (String × String)

/-- Model of `URLSearchParams.get`: value of the first pair with this exact name. -/
def paramsGet (ps : Params) (k : String) : Option String :=
  (ps.find? (fun p => p.1 = k)).map (fun p => p.2)

/-- Model of `URLSearchParams.set`: replace the value of the first pair named `k`
and drop later pairs with that name; append when the name is absent. -/
def paramsSet (k v : String) : Params → Params
  | [] => [(k, v)]
  | p :: rest =>
    if p.1 = k then (k, v) :: rest.filter (fun q => q.1 ≠ k)
    else p :: paramsSet k v rest

/-- Model of `URLSearchParams.delete`: remove every pair with this exact name. -/
def paramsDelete (k : String) (ps : Params) : Params :=
  ps.filter (fun p => p.1 ≠ k)

/-- Characters serialized verbatim by form-urlencoding. -/
def formSafeChar (c : Char) : Bool :=
  ('0' ≤ c && c ≤ '9') || ('A' ≤ c && c ≤ 'Z') || ('a' ≤ c && c ≤ 'z') ||
  c = '*' || c = '-' || c = '.' || c = '_'

/-- UTF-8 bytes of a code point (arithmetic form of the usual shifts). -/
def utf8Bytes (n : Nat) : List Nat :=
  if n < 0x80 then [n]
  else if n < 0x800 then [0xC0 + n / 64, 0x80 + n % 64]
  else if n < 0x10000 then
    [0xE0 + n / 4096, 0x80 + (n / 64) % 64, 0x80 + n % 64]
  else
    [0xF0 + n / 262144, 0x80 + (n / 4096) % 64, 0x80 + (n / 64) % 64,
     0x80 + n % 64]

/-- Uppercase hexadecimal digits. -/
def hexDigits : List Char :=
  ['0', '1', '2', '3', '4', '5', '6', '7', '8', '9', 'A', 'B', 'C', 'D',
   'E', 'F']

/-- The hex digit of a value below 16. -/
def hexDigit (n : Nat) : Char := hexDigits.getD n '0'

/-- Percent-escapes (one `%XX` group per byte) of a byte list. -/
def hexBlocks (bs : List Nat) : List Char :=
  bs.flatMap (fun b => ['%', hexDigit (b / 16), hexDigit (b % 16)])

/-- Form-urlencoding of one character. -/
def encodeChar (c : Char) : List Char :=
  if formSafeChar c then [c]
  else if c = ' ' then ['+']
  else hexBlocks (utf8Bytes c.toNat)

/-- Form-urlencoding of a string, as a char list. -/
def encodeStr (s : String) : List Char := s.data.flatMap encodeChar

/-- Serialization of one `name=value` pair. -/
def serPair (p : String × String) : List Char :=
  encodeStr p.1 ++ '=' :: encodeStr p.2

/-- Model of `URLSearchParams.toString` with `&` separators, as a char list. -/
def serParams : Params → List Char
  | [] => []
  | [p] => serPair p
  | p :: rest => serPair p ++ '&' :: serParams rest

/-- Model of `URL.toString` for a URL split into its part before the query
(`scheme://host/path`) and its search parameter list. -/
def urlToString (base : String) (ps : Params) : String :=
  if ps.isEmpty then base else base ++ "?" ++ String.mk (serParams ps)

/-! ### Origin policy -/

/-- A character allowed inside a `[a-z0-9-]+` subdomain label. -/
def labelChar (c : Char) : Bool :=
  ('a' ≤ c && c ≤ 'z') || ('0' ≤ c && c ≤ '9') || c = '-'

/-- Split a char list on `.` into its dot-separated components. -/
def splitDots : List Char → List (List Char)
  | [] => [[]]
  | c :: rest =>
    if c = '.' then [] :: splitDots rest
    else
      match splitDots rest with
      | h :: t => (c :: h) :: t
      | [] => [[c]]

/-- Model of `ALLOWED_ORIGIN_PATTERN.test`, the anchored regex
`^https:\/\/([a-z0-9-]+\.)*avocadostore\.(de|dev)$`: the string is
`https://` followed by dot-separated labels whose last two components are
`avocadostore` and `de`/`dev` and whose leading labels are non-empty words
over `[a-z0-9-]`. -/
def allowedOriginTest (s : String) : Bool :=
  let cs := s.data
  if cs.take 8 = "https://".data then
    match (splitDots (cs.drop 8)).reverse with
    | tld :: dom :: rest =>
      (tld = "de".data || tld = "dev".data) &&
      dom = "avocadostore".data &&
      rest.all (fun l => !l.isEmpty && l.all labelChar)
    | _ => false
  else false

/-- Model of `LOCALHOST_PATTERN.test`, the anchored regex
`^http:\/\/localhost(:\d+)?$`. -/
def localhostTest (s : String) : Bool :=
  let cs := s.data
  cs = "http://localhost".data ||
  (cs.take 17 = "http://localhost:".data &&
   !(cs.drop 17).isEmpty && (cs.drop 17).all (fun c => c.isDigit))

/-- The source's `isOriginAllowed`. -/
def isOriginAllowed (origin : String) : Bool :=
  allowedOriginTest origin || localhostTest origin ||
  origin = "https://dash.cloudflare.com"

/-- The canonical storefront origin used as the fallback value. -/
def canonicalOrigin : String := "https://www.avocadostore.de"

/-- The fixed CORS header values shared by `handleOptions` and
`addCorsHeaders`. -/
def corsAllowMethods : String := "GET, POST, OPTIONS"

def corsAllowHeaders : String :=
  "Content-Type, x-algolia-agent, x-algolia-api-key, " ++
  "x-algolia-application-id, x-as-cache-key, x-ssr-request"

/-- ASCII lowercasing of one character (header names are ASCII). -/
def lowerChar (c : Char) : Char :=
  if 'A' ≤ c && c ≤ 'Z' then Char.ofNat (c.toNat + 32) else c

/-- ASCII lowercasing of a string, used for the case-insensitive header
name comparisons of the Fetch `Headers` API. -/
def lowerStr (s : String) : String := ⟨s.data.map lowerChar⟩

/-- Model of `Headers.get`: first pair whose name matches case-insensitively. -/
def headerGet (hs : List (String × String)) (name : String) :
    Option String :=
  (hs.find? (fun p => lowerStr p.1 = lowerStr name)).map (fun p => p.2)

/-- Model of `Headers.set`: drop every pair with this (case-insensitive) name and
append the new pair. -/
def headerSet (hs : List (String × String)) (name value : String) :
    List (String × String) :=
  hs.filter (fun p => lowerStr p.1 ≠ lowerStr name) ++ [(name, value)]

/-- The source's `handleOptions`: a 204 response carrying the fixed
CORS headers plus the origin decision. -/
def handleOptions (origin : String) (isSSRRequest : Bool) : Resp :=
  let base :=
    [("Access-Control-Allow-Methods", corsAllowMethods),
     ("Access-Control-Allow-Headers", corsAllowHeaders),
     ("Access-Control-Max-Age", "86400")]
  let headers :=
    if isSSRRequest then
      base ++ [("Access-Control-Allow-Origin", canonicalOrigin)]
    else if origin ≠ "" && isOriginAllowed origin then
      base ++ [("Access-Control-Allow-Origin", origin), ("Vary", "Origin")]
    else
      base ++ [("Access-Control-Allow-Origin", canonicalOrigin)]
  { status := 204, body := .raw "", headers := headers }

/-- The source's `addCorsHeaders`, applied to every non-OPTIONS
response that reaches the end of the pipeline. -/
def addCorsHeaders (response : Resp) (origin : String)
    (isSSRRequest : Bool) : Resp :=
  let headers :=
    if isSSRRequest || origin = "" || !isOriginAllowed origin then
      headerSet response.headers "Access-Control-Allow-Origin"
        canonicalOrigin
    else
      headerSet
        (headerSet response.headers "Access-Control-Allow-Origin" origin)
        "Vary" "Origin"
  let headers := headerSet headers "Access-Control-Allow-Methods"
    corsAllowMethods
  let headers := headerSet headers "Access-Control-Allow-Headers"
    corsAllowHeaders
  let headers := headerSet headers "Access-Control-Max-Age" "86400"
  { response with headers := headers }

/-! ### Upstream dispatcher -/

/-- Outcome of one network `fetch` to an upstream URL: an HTTP response,
or a thrown network error with its message. -/
inductive UpstreamResult
  | resp (status : Nat) (body : String)
  | thrown (error : String)

/-- The network, as an oracle from the full request URL to its outcome.
The dispatcher forwards the same method, headers and body to every host,
so the URL determines the attempt in this model. -/
abbrev Upstream := String → UpstreamResult

/-- One failover attempt record (`HostAttempt`). -/
structure HostAttempt where
  host : String
  status : Option Nat
  error : Option String
  ok : Option Bool
deriving DecidableEq, Repr

/-- One entry of the aggregate `details` string:
``${a.host}${a.status ? ` (${a.status})` : ''}``. -/
def attemptDetail (a : HostAttempt) : String :=
  a.host ++
    (match a.status with
     | some s => if s ≠ 0 then " (" ++ toString s ++ ")" else ""
     | none => "")

/-- The `details` field of the all-hosts-failed error body. -/
def allFailedDetails (attempts : List HostAttempt) : String :=
  "Tried " ++ toString attempts.length ++ " host(s): " ++
    String.intercalate ", " (attempts.map attemptDetail)

/-- The 502 aggregate failure response (its real-time `timestamp` and the
`algolia_url`/`algolia_method`/`algolia_headers`/`algolia_body` debug
fields are not modelled). -/
def allFailedResp (attempts : List HostAttempt) : Resp :=
  { status := 502
    body := .errJson "All Algolia hosts failed" "algolia"
      (some (allFailedDetails attempts))
    headers := [("Content-Type", "application/json")] }

/-- The host loop of `tryAlgoliaHosts`, accumulating the attempts made so
far.  A response gets an attempt record (with the error body captured on
failure) and is returned when `response.ok`; otherwise the next host is
tried.  A thrown error records the attempt and continues. -/
def tryAlgoliaHostsGo (upstream : Upstream) (pathname search : String)
    (attempts : List HostAttempt) :
    List String → Resp × List HostAttempt
  | [] => (allFailedResp attempts, attempts)
  | host :: rest =>
    let url := "https://" ++ host ++ pathname ++ search
    match upstream url with
    | .resp status body =>
      let ok := 200 ≤ status && status ≤ 299
      let attempt : HostAttempt :=
        { host := host
          status := some status
          error := if ok then none else some body
          ok := some ok }
      if ok then
        ({ status := status, body := .raw body, headers := [] },
         attempts ++ [attempt])
      else tryAlgoliaHostsGo upstream pathname search (attempts ++ [attempt]) rest
    | .thrown e =>
      tryAlgoliaHostsGo upstream pathname search
        (attempts ++ [{ host := host, status := none, error := some e, ok := none }])
        rest

/-- The source's `tryAlgoliaHosts`, also exposing the attempt list (the source keeps it
locally; it records exactly the hosts contacted, in order). -/
def tryAlgoliaHosts (upstream : Upstream) (pathname search : String)
    (hosts : List String) : Resp × List HostAttempt :=
  tryAlgoliaHostsGo upstream pathname search [] hosts

/-- The source's `getHosts`: the primary `-dsn` host and the three numbered fallbacks,
in their fixed order. -/
def getHosts (applicationId : String) : List String :=
  [applicationId ++ "-dsn.algolia.net",
   applicationId ++ "-1.algolianet.com",
   applicationId ++ "-2.algolianet.com",
   applicationId ++ "-3.algolianet.com"]

/-- Worker configuration (`Env`). -/
structure Env where
  ALGOLIA_APPLICATION_ID : String
  ALGOLIA_API_KEY : String
  CACHE_TTL_SSR : Option String
  CACHE_TTL_CLIENT : Option String

def SEARCH_AGENT : String :=
  "Algolia%20for%20JavaScript%20(5.8.1)%3B%20Lite%20(5.8.1)%3B%20" ++
  "Browser%3B%20autocomplete-core%20(1.17.4)%3B%20autocomplete-js%20(1.17.4)"

def INSIGHTS_AGENT : String :=
  "insights-js%20(2.17.3)%3B%20insights-js-browser-umd%20(2.17.3)%3B%20" ++
  "insights-middleware%3B%20insights-plugin"

/-- The credential injection shared by both paths of `fetchFromAlgolia`:
`algoliaParams.set("x-algolia-api-key", ...)` then
`algoliaParams.set("x-algolia-application-id", ...)` on a copy of the
request's search params. -/
def credParams (searchParams : Params) (env : Env) : Params :=
  paramsSet "x-algolia-application-id" env.ALGOLIA_APPLICATION_ID
    (paramsSet "x-algolia-api-key" env.ALGOLIA_API_KEY searchParams)

/-- The query parameters forwarded on the `/1/events` analytics path:
set the `X-Algolia-Agent`, then delete the exactly-spelled
`X-Algolia-Application-Id` and `X-Algolia-API-Key` duplicates. -/
def insightsParams (searchParams : Params) (env : Env) : Params :=
  paramsDelete "X-Algolia-API-Key"
    (paramsDelete "X-Algolia-Application-Id"
      (paramsSet "X-Algolia-Agent" INSIGHTS_AGENT
        (credParams searchParams env)))

/-- The query parameters forwarded on the search path. -/
def searchPathParams (searchParams : Params) (env : Env) : Params :=
  paramsSet "x-algolia-agent" SEARCH_AGENT (credParams searchParams env)

/-- The source's `fetchFromAlgolia`: analytics requests go to the single insights host
(a thrown error is terminal, 502 with a fixed plain-text body); search
requests go through the host failover loop. -/
def fetchFromAlgolia (upstream : Upstream) (pathname : String)
    (searchParams : Params) (env : Env) : Resp :=
  if pathname = "/1/events" then
    let insightsUrl := "https://insights.algolia.io/1/events?" ++
      String.mk (serParams (insightsParams searchParams env))
    match upstream insightsUrl with
    | .resp status body =>
      { status := status, body := .raw body, headers := [] }
    | .thrown _ =>
      { status := 502
        body := .raw "Failed to reach Algolia Insights endpoint"
        headers := [] }
  else
    let search := "?" ++
      String.mk (serParams (searchPathParams searchParams env))
    (tryAlgoliaHosts upstream pathname search
      (getHosts env.ALGOLIA_APPLICATION_ID)).1

/-! ### The main fetch pipeline -/

/-- JavaScript `a || d` for an optional string (absent and `""` both fall
through to the default). -/
def jsStrOr (a : Option String) (d : String) : String :=
  match a with
  | some s => if s = "" then d else s
  | none => d

/-- JavaScript `x || d` on a parsed number (`none` models `NaN`). -/
def jsNumOr (v : Option Int) (d : Int) : Int :=
  match v with
  | some x => if x = 0 then d else x
  | none => d

/-- Model of `parseInt(s, 10)`: after skipping leading whitespace, an optional
sign and decimal digits; `NaN` (`none`) when no digit is found. -/
def jsParseInt (s : String) : Option Int :=
  let cs := s.data.dropWhile (fun c =>
    c = ' ' || c = '\t' || c = '\n' || c = '\r')
  let digits (ds : List Char) : Option Nat :=
    let pre := ds.takeWhile (fun c => c.isDigit)
    if pre.isEmpty then none
    else some (pre.foldl (fun a c => a * 10 + (c.toNat - 48)) 0)
  match cs with
  | '-' :: rest => (digits rest).map (fun n => -(n : Int))
  | '+' :: rest => (digits rest).map (fun n => (n : Int))
  | _ => (digits cs).map (fun n => (n : Int))

/-- The source's `parseInt(env.CACHE_TTL_CLIENT || "0", 10) || 0`. -/
def cacheTtlClientOf (env : Env) : Int :=
  jsNumOr (jsParseInt (jsStrOr env.CACHE_TTL_CLIENT "0")) 0

/-- The TTL written into the stored `Cache-Control` header. -/
def cacheTtlOf (env : Env) (isSSRRequest : Bool) : Int :=
  if isSSRRequest then
    jsNumOr (jsParseInt (jsStrOr env.CACHE_TTL_SSR "600")) 600
  else cacheTtlClientOf env

/-- The source's `searchParams.get("cacheKey") || request.headers.get("X-AS-Cache-Key")`
(JavaScript `||`: an empty-string query parameter falls through to the
header). -/
def cacheKeyParamOf (params : Params)
    (headers : List (String × String)) : Option String :=
  match paramsGet params "cacheKey" with
  | some s => if s = "" then headerGet headers "X-AS-Cache-Key" else some s
  | none => headerGet headers "X-AS-Cache-Key"

/-- JavaScript truthiness of the optional cache token. -/
def truthyOpt : Option String → Bool
  | some s => s ≠ ""
  | none => false

/-- The synthesized cache key: the full request URL with `cacheKey` set to
the token and `ssr` set to `"1"`/`"0"`. -/
def synthCacheKeyUrl (urlBase : String) (params : Params) (token : String)
    (isSSRRequest : Bool) : String :=
  urlToString urlBase
    (paramsSet "ssr" (if isSSRRequest then "1" else "0")
      (paramsSet "cacheKey" token params))

/-- An inbound request: the URL split into its part before the query
(`urlBase`, ending in `pathname`) and its parsed search parameters, plus
method, headers and the decoded POST body stage. -/
structure WorkerRequest where
  urlBase : String
  pathname : String
  params : Params
  method : String
  headers : List (String × String)
  body : RequestBody

/-- What one run of the worker's `fetch` handler produced: the response
returned to the caller, the cache key consulted (if the lookup branch
ran), whether it hit, and the `cache.put` call scheduled (if any). -/
structure WorkerOutcome where
  response : Resp
  cacheLookup : Option String
  cacheHit : Bool
  cachePut : Option (String × Resp)

/-- The source's `const origin = requestOrigin || "*"`. -/
def originOf (req : WorkerRequest) : String :=
  jsStrOr (headerGet req.headers "Origin") "*"

/-- The source's `isSSRRequest`: exact sentinel match on the `x-ssr-request` header. -/
def ssrOf (req : WorkerRequest) : Bool :=
  headerGet req.headers "x-ssr-request" = some "ASDf928gh2efhajsdf!!"

/-- The source's `shouldCache = isSSRRequest || cacheTtlClient > 0`. -/
def shouldCacheOf (req : WorkerRequest) (env : Env) : Bool :=
  ssrOf req || 0 < cacheTtlClientOf env

/-- Whether the POST validation stage rejects this request. -/
def validationFails (req : WorkerRequest) : Bool :=
  req.method = "POST" &&
    (match parseRequestBody req.body with
     | .error _ => true
     | .ok _ => false)

/-- The synthesized cache key, when the lookup branch runs
(`request.method === "POST" && cacheKeyParam && shouldCache`). -/
def cacheKeyUrlOf (req : WorkerRequest) (env : Env) : Option String :=
  if req.method = "POST" &&
      truthyOpt (cacheKeyParamOf req.params req.headers) &&
      shouldCacheOf req env then
    some (synthCacheKeyUrl req.urlBase req.params
      ((cacheKeyParamOf req.params req.headers).getD "") (ssrOf req))
  else none

/-- The stored copy of a response: its `Cache-Control` header rewritten to
the configured TTL. -/
def respToCache (response : Resp) (env : Env) (isSSRRequest : Bool) : Resp :=
  { response with
      headers := headerSet response.headers "Cache-Control"
        ("public, max-age=" ++ toString (cacheTtlOf env isSSRRequest)) }

/-- The cache-lookup / dispatch / cache-store stage of the handler. -/
def workerDispatchCache (req : WorkerRequest) (env : Env)
    (cache : List (String × Resp)) (upstream : Upstream) : WorkerOutcome :=
  let cacheKeyUrl := cacheKeyUrlOf req env
  let cached : Option Resp :=
    cacheKeyUrl.bind
      (fun k => (cache.find? (fun e => e.1 = k)).map (fun e => e.2))
  match cached with
  | some r =>
    { response := addCorsHeaders r (originOf req) (ssrOf req)
      cacheLookup := cacheKeyUrl, cacheHit := true, cachePut := none }
  | none =>
    let response := fetchFromAlgolia upstream req.pathname req.params env
    let put : Option (String × Resp) :=
      match cacheKeyUrl with
      | some k =>
        if response.ok && shouldCacheOf req env then
          some (k, respToCache response env (ssrOf req))
        else none
      | none => none
    { response := addCorsHeaders response (originOf req) (ssrOf req)
      cacheLookup := cacheKeyUrl, cacheHit := false, cachePut := put }

/-- The worker's `fetch` handler over explicit cache and network oracles.
Mirrors the source's control flow: OPTIONS short-circuit, POST body
validation (whose 400 error is returned directly, before the CORS
stamping at the end), conditional cache lookup, dispatch on miss,
conditional store, and `addCorsHeaders` on the way out. -/
def workerFetch (req : WorkerRequest) (env : Env)
    (cache : List (String × Resp)) (upstream : Upstream) : WorkerOutcome :=
  if req.method = "OPTIONS" then
    { response := handleOptions (originOf req) (ssrOf req)
      cacheLookup := none, cacheHit := false, cachePut := none }
  else
    match
      (if req.method = "POST" then parseRequestBody req.body else .ok none)
    with
    | .error errResp =>
      { response := errResp
        cacheLookup := none, cacheHit := false, cachePut := none }
    | .ok _body => workerDispatchCache req env cache upstream

/-! ### Validator characterization (claims C3, C10) -/

/-- Claim-side predicate: every item's query is the empty string or
absent. -/
def batchAllEmpty (rs : List SearchRequestItem) : Bool :=
  rs.all (fun i => i.query.isEmptyOrUndefined)

/-- Claim-side predicate: some item's non-empty (truthy) query fails the
allow-listed character class. -/
def batchHasInvalidChar (rs : List SearchRequestItem) : Bool :=
  rs.any (fun i => i.query.truthy && !allowedQueryTest i.query.jsToString)

/-- Claim-side predicate: some item's non-empty (truthy) query has
(UTF-16) length at least 3. -/
def batchHasLongQuery (rs : List SearchRequestItem) : Bool :=
  rs.any (fun i => i.query.truthy && decide (3 ≤ jsLength i.query.jsToString))

theorem isInvalidQueryLoop_spec (orig : List SearchRequestItem) :
    ∀ (rest : List SearchRequestItem) (acc : Bool),
    ((isInvalidQueryLoop orig rest acc).invalid,
     (isInvalidQueryLoop orig rest acc).errorType) =
      (if batchHasInvalidChar rest then
        (true, some ValidationErrorType.invalid_characters)
       else if acc || batchHasLongQuery rest then (false, none)
       else (true, some ValidationErrorType.too_short)) := by
  intro rest
  induction rest with
  | nil =>
    intro acc
    cases acc <;>
      simp [isInvalidQueryLoop, batchHasInvalidChar, batchHasLongQuery,
        tooShortResult]
  | cons r rest ih =>
    intro acc
    by_cases ht : r.query.truthy
    · by_cases htest : allowedQueryTest r.query.jsToString
      · have h :=
          ih (acc || decide (3 ≤ jsLength r.query.jsToString))
        simp only [isInvalidQueryLoop, ht, if_true, htest,
          Bool.not_true, Bool.false_eq_true, if_false] at h ⊢
        rw [h]
        simp [batchHasInvalidChar, batchHasLongQuery, ht, htest,
          Bool.or_assoc]
      · simp [isInvalidQueryLoop, ht, htest, batchHasInvalidChar]
    · have h := ih acc
      simp only [isInvalidQueryLoop, ht, Bool.false_eq_true, if_false] at h ⊢
      rw [h]
      simp [batchHasInvalidChar, batchHasLongQuery, ht]

/-- C3.  The validator's classification: an all-empty batch is accepted;
otherwise a character-class violation on any truthy query rejects with
`invalid_characters` (regardless of lengths); otherwise absence of any
query of length ≥ 3 rejects with `too_short`; otherwise accept. -/
theorem validator_classification (rs : List SearchRequestItem) :
    ((isInvalidQuery rs).invalid, (isInvalidQuery rs).errorType) =
      (if batchAllEmpty rs then (false, none)
       else if batchHasInvalidChar rs then
         (true, some ValidationErrorType.invalid_characters)
       else if batchHasLongQuery rs then (false, none)
       else (true, some ValidationErrorType.too_short)) := by
  by_cases hE : rs.all (fun req => req.query.isEmptyOrUndefined)
  · simp [isInvalidQuery, batchAllEmpty, hE]
  · have h := isInvalidQueryLoop_spec rs rs false
    simp only [Bool.false_or] at h
    simp [isInvalidQuery, batchAllEmpty, hE, h]

/-- A query value that is falsy in JavaScript without being the empty
string or `undefined`: `null`, `false`, or the number `0`. -/
def falsyNonEmptyNonAbsent (q : QueryField) : Prop :=
  q = .null ∨ q = .boolean false ∨ q = .num 0

theorem isInvalidQueryLoop_all_falsy (orig : List SearchRequestItem) :
    ∀ (rest : List SearchRequestItem) (acc : Bool),
    (∀ i ∈ rest, i.query.truthy = false) →
    isInvalidQueryLoop orig rest acc =
      (if acc then { invalid := false, errorType := none, query := none }
       else tooShortResult orig) := by
  intro rest
  induction rest with
  | nil => intro acc _; rfl
  | cons r rest ih =>
    intro acc h
    have hr : r.query.truthy = false := h r (List.mem_cons_self r rest)
    simp only [isInvalidQueryLoop, hr, Bool.false_eq_true, if_false]
    exact ih acc (fun i hi => h i (List.mem_cons_of_mem r hi))

/-- C10.  A non-empty batch in which every item's query is a falsy
non-string value other than the empty string (such as `null`) is rejected
with 400 and kind `too_short`: the all-empty acceptance check matches only
`""` and `undefined`, and the scanning loop skips falsy values, so no
query counts as long. -/
theorem all_falsy_batch_rejected_too_short (rs : List SearchRequestItem)
    (hne : rs ≠ [])
    (hfalsy : ∀ i ∈ rs, falsyNonEmptyNonAbsent i.query) :
    parseRequestBody (.jsonBody (some rs)) =
      .error
        { status := 400
          body := .errJson "Query too short (minimum 3 characters)"
            "too_short" none
          headers := [("Content-Type", "application/json")] } := by
  have htruthy : ∀ i ∈ rs, i.query.truthy = false := by
    intro i hi
    rcases hfalsy i hi with h | h | h <;> simp [h, QueryField.truthy]
  have hnotempty : ∀ i ∈ rs, i.query.isEmptyOrUndefined = false := by
    intro i hi
    rcases hfalsy i hi with h | h | h <;> simp [h, QueryField.isEmptyOrUndefined]
  have hAllEmpty : rs.all (fun req => req.query.isEmptyOrUndefined) = false := by
    cases rs with
    | nil => exact absurd rfl hne
    | cons r rest =>
      have := hnotempty r (List.mem_cons_self r rest)
      simp [List.all_cons, this]
  have hfind : rs.find? (fun r => r.query.truthy) = none := by
    rw [List.find?_eq_none]
    intro i hi
    simp [htruthy i hi]
  have hval : isInvalidQuery rs = tooShortResult rs := by
    simp only [isInvalidQuery, hAllEmpty, Bool.false_eq_true, if_false]
    rw [isInvalidQueryLoop_all_falsy rs rs false htruthy]
    rfl
  have hts : tooShortResult rs =
      { invalid := true, errorType := some .too_short, query := none } := by
    simp [tooShortResult, hfind]
  simp [parseRequestBody, hval, hts]

/-- Concrete instance of `all_falsy_batch_rejected_too_short`: a batch
whose single item has a `null` query. -/
theorem all_falsy_batch_rejected_too_short_witness :
    ([({ query := .null } : SearchRequestItem)] ≠ []) ∧
    parseRequestBody (.jsonBody (some [{ query := .null }])) =
      .error
        { status := 400
          body := .errJson "Query too short (minimum 3 characters)"
            "too_short" none
          headers := [("Content-Type", "application/json")] } :=
  ⟨by decide,
   all_falsy_batch_rejected_too_short [{ query := .null }]
     (by decide)
     (by intro i hi; simp at hi; simp [hi, falsyNonEmptyNonAbsent])⟩

/-! ### Injectivity of the form-urlencoded serialization

The cache-key uniqueness claim needs that `URLSearchParams.toString`
distinguishes parameter lists that differ only in one value; this section
proves the percent-encoding injective. -/

theorem char_toNat_lt_codes (c : Char) : c.toNat < 1114112 := by
  have h := c.valid
  rcases h with h | ⟨h1, h2⟩ <;> (simp [Char.toNat]; omega)

theorem hexDigit_inj :
    ∀ a, a < 16 → ∀ b, b < 16 → hexDigit a = hexDigit b → a = b := by
  decide

theorem hexDigit_not_special (a : Nat) :
    hexDigit a ≠ '%' ∧ hexDigit a ≠ '&' ∧ hexDigit a ≠ '=' ∧
    hexDigit a ≠ '+' := by
  rcases Nat.lt_or_ge a 16 with h | h
  · exact (by decide :
      ∀ x, x < 16 → hexDigit x ≠ '%' ∧ hexDigit x ≠ '&' ∧
        hexDigit x ≠ '=' ∧ hexDigit x ≠ '+') a h
  · unfold hexDigit
    rw [List.getD_eq_default _ _ (by simpa [hexDigits] using h)]
    decide

theorem hexBlocks_utf8_cons (n : Nat) :
    ∃ t, hexBlocks (utf8Bytes n) = '%' :: t := by
  unfold utf8Bytes
  split_ifs <;> exact ⟨_, rfl⟩

theorem hexBlocks_utf8_append_inj (m n : Nat) (hm : m < 1114112)
    (hn : n < 1114112) (xs ys : List Char)
    (h : hexBlocks (utf8Bytes m) ++ xs = hexBlocks (utf8Bytes n) ++ ys) :
    m = n ∧ xs = ys := by
  unfold utf8Bytes at h
  split_ifs at h
  all_goals
    simp only [hexBlocks, List.flatMap_cons, List.flatMap_nil,
      List.append_nil, List.cons_append, List.nil_append,
      List.append_assoc, List.cons.injEq, eq_self_iff_true, true_and] at h
  -- 16 cases: the four byte-length branches for each side.
  · obtain ⟨e1, e2, e3⟩ := h
    have d1 := hexDigit_inj _ (by omega) _ (by omega) e1
    have d2 := hexDigit_inj _ (by omega) _ (by omega) e2
    exact ⟨by omega, e3⟩
  · exact absurd (hexDigit_inj _ (by omega) _ (by omega) h.1) (by omega)
  · exact absurd (hexDigit_inj _ (by omega) _ (by omega) h.1) (by omega)
  · exact absurd (hexDigit_inj _ (by omega) _ (by omega) h.1) (by omega)
  · exact absurd (hexDigit_inj _ (by omega) _ (by omega) h.1) (by omega)
  · obtain ⟨e1, e2, e3, e4, e5⟩ := h
    have d1 := hexDigit_inj _ (by omega) _ (by omega) e1
    have d2 := hexDigit_inj _ (by omega) _ (by omega) e2
    have d3 := hexDigit_inj _ (by omega) _ (by omega) e3
    have d4 := hexDigit_inj _ (by omega) _ (by omega) e4
    exact ⟨by omega, e5⟩
  · exact absurd (hexDigit_inj _ (by omega) _ (by omega) h.1) (by omega)
  · exact absurd (hexDigit_inj _ (by omega) _ (by omega) h.1) (by omega)
  · exact absurd (hexDigit_inj _ (by omega) _ (by omega) h.1) (by omega)
  · exact absurd (hexDigit_inj _ (by omega) _ (by omega) h.1) (by omega)
  · obtain ⟨e1, e2, e3, e4, e5, e6, e7⟩ := h
    have d1 := hexDigit_inj _ (by omega) _ (by omega) e1
    have d2 := hexDigit_inj _ (by omega) _ (by omega) e2
    have d3 := hexDigit_inj _ (by omega) _ (by omega) e3
    have d4 := hexDigit_inj _ (by omega) _ (by omega) e4
    have d5 := hexDigit_inj _ (by omega) _ (by omega) e5
    have d6 := hexDigit_inj _ (by omega) _ (by omega) e6
    exact ⟨by omega, e7⟩
  · exact absurd (hexDigit_inj _ (by omega) _ (by omega) h.1) (by omega)
  · exact absurd (hexDigit_inj _ (by omega) _ (by omega) h.1) (by omega)
  · exact absurd (hexDigit_inj _ (by omega) _ (by omega) h.1) (by omega)
  · exact absurd (hexDigit_inj _ (by omega) _ (by omega) h.1) (by omega)
  · obtain ⟨e1, e2, e3, e4, e5, e6, e7, e8, e9⟩ := h
    have d1 := hexDigit_inj _ (by omega) _ (by omega) e1
    have d2 := hexDigit_inj _ (by omega) _ (by omega) e2
    have d3 := hexDigit_inj _ (by omega) _ (by omega) e3
    have d4 := hexDigit_inj _ (by omega) _ (by omega) e4
    have d5 := hexDigit_inj _ (by omega) _ (by omega) e5
    have d6 := hexDigit_inj _ (by omega) _ (by omega) e6
    have d7 := hexDigit_inj _ (by omega) _ (by omega) e7
    have d8 := hexDigit_inj _ (by omega) _ (by omega) e8
    exact ⟨by omega, e9⟩

theorem char_eq_of_toNat_eq {a b : Char} (h : a.toNat = b.toNat) : a = b :=
  Char.ext (UInt32.ext h)

theorem encodeChar_shape (e : Char) :
    (formSafeChar e = true ∧ encodeChar e = [e]) ∨
    (formSafeChar e = false ∧ e = ' ' ∧ encodeChar e = ['+']) ∨
    (formSafeChar e = false ∧ e ≠ ' ' ∧
      encodeChar e = hexBlocks (utf8Bytes e.toNat)) := by
  unfold encodeChar
  split_ifs with h1 h2
  · exact .inl ⟨h1, rfl⟩
  · exact .inr (.inl ⟨by simpa using h1, h2, rfl⟩)
  · exact .inr (.inr ⟨by simpa using h1, h2, rfl⟩)

theorem encodeChar_append_inj (c d : Char) (xs ys : List Char)
    (h : encodeChar c ++ xs = encodeChar d ++ ys) : c = d ∧ xs = ys := by
  rcases encodeChar_shape c with ⟨hc, hce⟩ | ⟨hc, hcsp, hce⟩ | ⟨hc, hcsp, hce⟩ <;>
    rcases encodeChar_shape d with ⟨hd, hde⟩ | ⟨hd, hdsp, hde⟩ | ⟨hd, hdsp, hde⟩ <;>
      rw [hce, hde] at h
  -- both form-safe
  · simp only [List.cons_append, List.cons.injEq] at h
    exact ⟨h.1, h.2⟩
  -- safe vs space
  · simp only [List.cons_append, List.cons.injEq] at h
    rw [h.1] at hc
    exact absurd hc (by decide)
  -- safe vs percent block
  · obtain ⟨t, ht⟩ := hexBlocks_utf8_cons d.toNat
    rw [ht] at h
    simp only [List.cons_append, List.cons.injEq] at h
    rw [h.1] at hc
    exact absurd hc (by decide)
  -- space vs safe
  · simp only [List.cons_append, List.cons.injEq] at h
    rw [← h.1] at hd
    exact absurd hd (by decide)
  -- space vs space
  · simp only [List.cons_append, List.cons.injEq] at h
    exact ⟨hcsp.trans hdsp.symm, h.2⟩
  -- space vs percent block
  · obtain ⟨t, ht⟩ := hexBlocks_utf8_cons d.toNat
    rw [ht] at h
    simp only [List.cons_append, List.cons.injEq] at h
    exact absurd h.1 (by decide)
  -- percent block vs safe
  · obtain ⟨t, ht⟩ := hexBlocks_utf8_cons c.toNat
    rw [ht] at h
    simp only [List.cons_append, List.cons.injEq] at h
    rw [← h.1] at hd
    exact absurd hd (by decide)
  -- percent block vs space
  · obtain ⟨t, ht⟩ := hexBlocks_utf8_cons c.toNat
    rw [ht] at h
    simp only [List.cons_append, List.cons.injEq] at h
    exact absurd h.1 (by decide)
  -- both percent blocks
  · have hinj := hexBlocks_utf8_append_inj c.toNat d.toNat
      (char_toNat_lt_codes c) (char_toNat_lt_codes d) xs ys h
    exact ⟨char_eq_of_toNat_eq hinj.1, hinj.2⟩

theorem encodeChar_ne_nil (c : Char) : encodeChar c ≠ [] := by
  unfold encodeChar
  split_ifs with h1 h2
  · exact List.cons_ne_nil _ _
  · exact List.cons_ne_nil _ _
  · obtain ⟨t, ht⟩ := hexBlocks_utf8_cons c.toNat
    rw [ht]
    exact List.cons_ne_nil _ _

theorem encodeFlat_inj :
    ∀ (as bs : List Char),
    as.flatMap encodeChar = bs.flatMap encodeChar → as = bs := by
  intro as
  induction as with
  | nil =>
    intro bs h
    cases bs with
    | nil => rfl
    | cons b bs =>
      rw [List.flatMap_nil, List.flatMap_cons] at h
      exact absurd (List.append_eq_nil.mp h.symm).1 (encodeChar_ne_nil b)
  | cons a as ih =>
    intro bs h
    cases bs with
    | nil =>
      rw [List.flatMap_nil, List.flatMap_cons] at h
      exact absurd (List.append_eq_nil.mp h).1 (encodeChar_ne_nil a)
    | cons b bs =>
      rw [List.flatMap_cons, List.flatMap_cons] at h
      obtain ⟨hab, ht⟩ := encodeChar_append_inj a b _ _ h
      rw [hab, ih bs ht]

theorem encodeStr_inj {s t : String} (h : encodeStr s = encodeStr t) :
    s = t := by
  cases s with
  | mk sd =>
    cases t with
    | mk td =>
      have := encodeFlat_inj sd td h
      simp [this]

theorem mem_hexBlocks {x : Char} :
    ∀ {bs : List Nat}, x ∈ hexBlocks bs → x = '%' ∨ ∃ a, x = hexDigit a := by
  intro bs
  induction bs with
  | nil => intro hx; simp [hexBlocks] at hx
  | cons b bs ih =>
    intro hx
    simp only [hexBlocks, List.flatMap_cons, List.mem_append, List.mem_cons,
      List.not_mem_nil, or_false] at hx
    rcases hx with (rfl | rfl | rfl) | hx
    · exact .inl rfl
    · exact .inr ⟨b / 16, rfl⟩
    · exact .inr ⟨b % 16, rfl⟩
    · exact ih hx

theorem encodeChar_chars {x c : Char} (hx : x ∈ encodeChar c) :
    (formSafeChar c = true ∧ x = c) ∨ x = '+' ∨ x = '%' ∨
    ∃ a, x = hexDigit a := by
  unfold encodeChar at hx
  split_ifs at hx with h1 h2
  · simp at hx
    exact .inl ⟨h1, hx⟩
  · simp at hx
    exact .inr (.inl hx)
  · rcases mem_hexBlocks hx with h | h
    · exact .inr (.inr (.inl h))
    · exact .inr (.inr (.inr h))

theorem encodeStr_no_amp_eq (v : String) :
    '&' ∉ encodeStr v ∧ '=' ∉ encodeStr v := by
  constructor <;>
  · intro hmem
    rw [encodeStr, List.mem_flatMap] at hmem
    obtain ⟨c, _, hc⟩ := hmem
    rcases encodeChar_chars hc with ⟨hs, he⟩ | he | he | ⟨a, he⟩
    · rw [← he] at hs
      exact absurd hs (by decide)
    · exact absurd he (by decide)
    · exact absurd he (by decide)
    · first
      | exact (hexDigit_not_special a).2.1 he.symm
      | exact (hexDigit_not_special a).2.2.1 he.symm

theorem append_amp_inj :
    ∀ (a b x y : List Char), '&' ∉ a → '&' ∉ b →
    a ++ '&' :: x = b ++ '&' :: y → a = b ∧ x = y := by
  intro a
  induction a with
  | nil =>
    intro b x y _ hb h
    cases b with
    | nil => simpa using h
    | cons d bs =>
      simp only [List.nil_append, List.cons_append, List.cons.injEq] at h
      exact absurd (h.1 ▸ List.mem_cons_self d bs) hb
  | cons c as ih =>
    intro b x y ha hb h
    cases b with
    | nil =>
      simp only [List.nil_append, List.cons_append, List.cons.injEq] at h
      exact absurd (h.1 ▸ List.mem_cons_self c as) ha
    | cons d bs =>
      simp only [List.cons_append, List.cons.injEq] at h
      have ha' : '&' ∉ as := fun hm => ha (List.mem_cons_of_mem c hm)
      have hb' : '&' ∉ bs := fun hm => hb (List.mem_cons_of_mem d hm)
      obtain ⟨hab, ht⟩ := ih bs x y ha' hb' h.2
      exact ⟨by rw [h.1, hab], ht⟩

theorem serParams_inj :
    ∀ (l1 l2 : Params), l1.map Prod.fst = l2.map Prod.fst →
    serParams l1 = serParams l2 → l1 = l2 := by
  intro l1
  induction l1 with
  | nil =>
    intro l2 hk _
    cases l2 with
    | nil => rfl
    | cons q l2 => simp at hk
  | cons p l1 ih =>
    intro l2 hk hs
    cases l2 with
    | nil => simp at hk
    | cons q l2 =>
      simp only [List.map_cons, List.cons.injEq] at hk
      obtain ⟨hfst, hrest⟩ := hk
      cases l1 with
      | nil =>
        cases l2 with
        | nil =>
          simp only [serParams, serPair, hfst] at hs
          have h2 := List.append_cancel_left hs
          simp only [List.cons.injEq, true_and] at h2
          have hv := encodeStr_inj h2
          obtain ⟨pk, pv⟩ := p
          obtain ⟨qk, qv⟩ := q
          simp_all
        | cons _ _ => simp at hrest
      | cons p2 l1' =>
        cases l2 with
        | nil => simp at hrest
        | cons q2 l2' =>
          simp only [serParams, serPair, hfst, List.cons_append,
            List.append_assoc] at hs
          have h2 := List.append_cancel_left hs
          simp only [List.cons.injEq, true_and] at h2
          obtain ⟨hv, htail⟩ :=
            append_amp_inj _ _ _ _ (encodeStr_no_amp_eq p.2).1
              (encodeStr_no_amp_eq q.2).1 h2
          have hveq := encodeStr_inj hv
          have hrest' := ih (q2 :: l2') hrest htail
          obtain ⟨pk, pv⟩ := p
          obtain ⟨qk, qv⟩ := q
          simp_all

/-! ### URLSearchParams lemmas -/

theorem paramsGet_cons (p : String × String) (ps : Params) (k : String) :
    paramsGet (p :: ps) k = if p.1 = k then some p.2 else paramsGet ps k := by
  rw [paramsGet, List.find?_cons]
  by_cases h : p.1 = k
  · simp [h]
  · simp [h, paramsGet]

theorem paramsSet_ne_nil (k v : String) (ps : Params) :
    paramsSet k v ps ≠ [] := by
  cases ps with
  | nil => simp [paramsSet]
  | cons p rest =>
    unfold paramsSet
    split_ifs <;> simp

theorem filter_key_map_fst (k : String) :
    ∀ (ps qs : Params), ps.map Prod.fst = qs.map Prod.fst →
    (ps.filter (fun q => q.1 ≠ k)).map Prod.fst =
      (qs.filter (fun q => q.1 ≠ k)).map Prod.fst := by
  intro ps
  induction ps with
  | nil =>
    intro qs h
    cases qs with
    | nil => rfl
    | cons q qs => simp at h
  | cons p ps ih =>
    intro qs h
    cases qs with
    | nil => simp at h
    | cons q qs =>
      simp only [List.map_cons, List.cons.injEq] at h
      obtain ⟨h1, h2⟩ := h
      by_cases hp : p.1 = k
      · rw [List.filter_cons_of_neg (by simp [hp]),
          List.filter_cons_of_neg (by simp [← h1, hp])]
        exact ih qs h2
      · rw [List.filter_cons_of_pos (by simp [hp]),
          List.filter_cons_of_pos (by simp [← h1, hp])]
        simp only [List.map_cons, List.cons.injEq]
        exact ⟨h1, ih qs h2⟩

theorem paramsSet_map_fst_congr (k v v' : String) :
    ∀ (ps qs : Params), ps.map Prod.fst = qs.map Prod.fst →
    (paramsSet k v ps).map Prod.fst = (paramsSet k v' qs).map Prod.fst := by
  intro ps
  induction ps with
  | nil =>
    intro qs h
    cases qs with
    | nil => rfl
    | cons q qs => simp at h
  | cons p ps ih =>
    intro qs h
    cases qs with
    | nil => simp at h
    | cons q qs =>
      simp only [List.map_cons, List.cons.injEq] at h
      obtain ⟨h1, h2⟩ := h
      unfold paramsSet
      by_cases hk : p.1 = k
      · rw [if_pos hk, if_pos (by rw [← h1]; exact hk)]
        simp only [List.map_cons, List.cons.injEq, true_and]
        exact filter_key_map_fst k ps qs h2
      · rw [if_neg hk, if_neg (by rw [← h1]; exact hk)]
        simp only [List.map_cons, List.cons.injEq]
        exact ⟨h1, ih qs h2⟩

theorem paramsGet_paramsSet_self (k v : String) :
    ∀ ps, paramsGet (paramsSet k v ps) k = some v := by
  intro ps
  induction ps with
  | nil => simp [paramsSet, paramsGet_cons]
  | cons p ps ih =>
    unfold paramsSet
    split_ifs with hk
    · simp [paramsGet_cons]
    · rw [paramsGet_cons, if_neg hk]
      exact ih

theorem paramsGet_filter_ne (k k' : String) (h : k' ≠ k) :
    ∀ ps : Params,
    paramsGet (ps.filter (fun q => q.1 ≠ k)) k' = paramsGet ps k' := by
  intro ps
  induction ps with
  | nil => rfl
  | cons p ps ih =>
    by_cases hp : p.1 = k
    · rw [List.filter_cons_of_neg (by simp [hp]), paramsGet_cons,
        if_neg (by rw [hp]; exact fun e => h e.symm)]
      exact ih
    · rw [List.filter_cons_of_pos (by simp [hp]), paramsGet_cons,
        paramsGet_cons]
      by_cases hp' : p.1 = k'
      · simp [hp']
      · rw [if_neg hp', if_neg hp']
        exact ih

theorem paramsGet_paramsSet_ne (k k' v : String) (h : k' ≠ k) :
    ∀ ps, paramsGet (paramsSet k v ps) k' = paramsGet ps k' := by
  have hkk : ¬(k = k') := fun e => h e.symm
  intro ps
  induction ps with
  | nil =>
    rw [show paramsSet k v [] = [(k, v)] from rfl, paramsGet_cons,
      if_neg hkk]
  | cons p ps ih =>
    unfold paramsSet
    split_ifs with hk
    · have hpk : ¬(p.1 = k') := by rw [hk]; exact hkk
      rw [paramsGet_cons, if_neg hkk, paramsGet_filter_ne k k' h ps,
        paramsGet_cons, if_neg hpk]
    · rw [paramsGet_cons, paramsGet_cons]
      by_cases hp' : p.1 = k'
      · rw [if_pos hp', if_pos hp']
      · rw [if_neg hp', if_neg hp']
        exact ih

theorem string_data_mk (l : List Char) : (String.mk l).data = l := rfl

theorem urlToString_of_ne_nil (base : String) (ps : Params)
    (h : ps ≠ []) :
    urlToString base ps = base ++ "?" ++ String.mk (serParams ps) := by
  unfold urlToString
  rw [if_neg (by simpa [List.isEmpty_iff] using h)]

/-- C6.  Two cache keys synthesized from the same request URL differ
whenever the tokens differ or the SSR flags differ: the serialized key
string determines the token and the `ssr` marker. -/
theorem cache_keys_differ (urlBase : String) (ps : Params) (t1 t2 : String)
    (s1 s2 : Bool) (hne : (t1, s1) ≠ (t2, s2)) :
    synthCacheKeyUrl urlBase ps t1 s1 ≠ synthCacheKeyUrl urlBase ps t2 s2 := by
  intro heq
  have h1ne := paramsSet_ne_nil "ssr" (if s1 then "1" else "0")
    (paramsSet "cacheKey" t1 ps)
  have h2ne := paramsSet_ne_nil "ssr" (if s2 then "1" else "0")
    (paramsSet "cacheKey" t2 ps)
  unfold synthCacheKeyUrl at heq
  rw [urlToString_of_ne_nil _ _ h1ne, urlToString_of_ne_nil _ _ h2ne] at heq
  have hd := congrArg String.data heq
  simp only [String.data_append, string_data_mk] at hd
  have hser := List.append_cancel_left hd
  have hkeys :
      (paramsSet "ssr" (if s1 then "1" else "0")
        (paramsSet "cacheKey" t1 ps)).map Prod.fst =
      (paramsSet "ssr" (if s2 then "1" else "0")
        (paramsSet "cacheKey" t2 ps)).map Prod.fst :=
    paramsSet_map_fst_congr "ssr" _ _ _ _
      (paramsSet_map_fst_congr "cacheKey" t1 t2 ps ps rfl)
  have hl := serParams_inj _ _ hkeys hser
  have htok : some t1 = some t2 := by
    have g1 := paramsGet_paramsSet_ne "ssr" "cacheKey"
      (if s1 then "1" else "0") (by decide) (paramsSet "cacheKey" t1 ps)
    have g2 := paramsGet_paramsSet_ne "ssr" "cacheKey"
      (if s2 then "1" else "0") (by decide) (paramsSet "cacheKey" t2 ps)
    rw [paramsGet_paramsSet_self] at g1 g2
    rw [← g1, ← g2, hl]
  have hssr : some (if s1 then "1" else "0") =
      some (if s2 then "1" else "0") := by
    rw [← paramsGet_paramsSet_self "ssr" (if s1 then "1" else "0")
        (paramsSet "cacheKey" t1 ps),
      ← paramsGet_paramsSet_self "ssr" (if s2 then "1" else "0")
        (paramsSet "cacheKey" t2 ps), hl]
  have ht : t1 = t2 := Option.some.inj htok
  have hs : s1 = s2 := by
    cases s1 <;> cases s2 <;> simp_all
  exact hne (by rw [ht, hs])

/-- Concrete instance of `cache_keys_differ`: tokens `key-1` and `key-2`
on the same URL yield distinct keys. -/
theorem cache_keys_differ_witness :
    (("key-1", false) ≠ (("key-2" : String), false)) ∧
    synthCacheKeyUrl "https://example.com/1/indexes/queries" []
      "key-1" false ≠
    synthCacheKeyUrl "https://example.com/1/indexes/queries" []
      "key-2" false :=
  ⟨by decide,
   cache_keys_differ "https://example.com/1/indexes/queries" []
     "key-1" "key-2" false false (by decide)⟩

/-! ### Cache token precedence (claim C9) -/

/-- C9 counterexample.  A request that carries both a `cacheKey` query
parameter (with the empty value) and an `X-AS-Cache-Key` header uses the
header's value, not the query parameter's: JavaScript `||` treats the
empty string as absent. -/
theorem cache_token_empty_param_defers_to_header :
    paramsGet [("cacheKey", "")] "cacheKey" = some "" ∧
    headerGet [("X-AS-Cache-Key", "header-token")] "X-AS-Cache-Key" =
      some "header-token" ∧
    cacheKeyParamOf [("cacheKey", "")] [("X-AS-Cache-Key", "header-token")] =
      some "header-token" ∧
    some "header-token" ≠ some ("" : String) := by
  refine ⟨rfl, rfl, rfl, by decide⟩

/-- C9 (amended).  The `cacheKey` query parameter takes precedence over
the `X-AS-Cache-Key` header whenever its value is non-empty; an
empty-valued query parameter (like an absent one) defers to the header. -/
theorem cache_token_query_param_precedence (ps : Params)
    (hs : List (String × String)) (v : String)
    (hget : paramsGet ps "cacheKey" = some v) (hne : v ≠ "") :
    cacheKeyParamOf ps hs = some v := by
  unfold cacheKeyParamOf
  rw [hget]
  simp [hne]

/-- Concrete instance of `cache_token_query_param_precedence`: a non-empty
query parameter wins over a simultaneously present header. -/
theorem cache_token_query_param_precedence_witness :
    paramsGet [("cacheKey", "query-token")] "cacheKey" =
      some "query-token" ∧
    cacheKeyParamOf [("cacheKey", "query-token")]
      [("X-AS-Cache-Key", "header-token")] = some "query-token" :=
  ⟨rfl,
   cache_token_query_param_precedence [("cacheKey", "query-token")]
     [("X-AS-Cache-Key", "header-token")] "query-token" rfl (by decide)⟩

/-! ### Header lemmas -/

theorem headerGet_cons (k v : String) (hs : List (String × String))
    (name : String) :
    headerGet ((k, v) :: hs) name =
      if lowerStr k = lowerStr name then some v
      else headerGet hs name := by
  rw [headerGet, List.find?_cons]
  by_cases h : lowerStr k = lowerStr name
  · simp [h]
  · simp [h, headerGet]

theorem headerGet_headerSet_self (hs : List (String × String))
    (n v : String) : headerGet (headerSet hs n v) n = some v := by
  unfold headerSet
  induction hs with
  | nil => simp [headerGet_cons]
  | cons p hs ih =>
    obtain ⟨pk, pv⟩ := p
    by_cases hp : lowerStr pk = lowerStr n
    · rw [List.filter_cons_of_neg (by simp [hp])]
      exact ih
    · rw [List.filter_cons_of_pos (by simp [hp]), List.cons_append,
        headerGet_cons, if_neg hp]
      exact ih

theorem headerGet_headerSet_ne (hs : List (String × String))
    (n v n' : String) (h : lowerStr n' ≠ lowerStr n) :
    headerGet (headerSet hs n v) n' = headerGet hs n' := by
  unfold headerSet
  induction hs with
  | nil =>
    rw [List.filter_nil, List.nil_append, headerGet_cons,
      if_neg (fun e => h e.symm)]
  | cons p hs ih =>
    obtain ⟨pk, pv⟩ := p
    by_cases hp : lowerStr pk = lowerStr n
    · rw [List.filter_cons_of_neg (by simp [hp]), headerGet_cons,
        if_neg (by rw [hp]; exact fun e => h e.symm)]
      exact ih
    · rw [List.filter_cons_of_pos (by simp [hp]), List.cons_append,
        headerGet_cons, headerGet_cons]
      by_cases hp' : lowerStr pk = lowerStr n'
      · rw [if_pos hp', if_pos hp']
      · rw [if_neg hp', if_neg hp']
        exact ih

/-! ### Origin decision (claims C1, C7) -/

/-- The origin decision stated by the spec: SSR requests get the fixed
canonical storefront origin; a present, allow-listed origin is echoed with
`Vary: Origin`; anything else falls back to the canonical origin without
setting `Vary`. -/
def corsDecisionSpec (origin : String) (isSSRRequest : Bool) :
    String × Bool :=
  if isSSRRequest then (canonicalOrigin, false)
  else if origin ≠ "" && isOriginAllowed origin then (origin, true)
  else (canonicalOrigin, false)

theorem handleOptions_decision (origin : String) (ssr : Bool) :
    headerGet (handleOptions origin ssr).headers
      "Access-Control-Allow-Origin" = some (corsDecisionSpec origin ssr).1 ∧
    headerGet (handleOptions origin ssr).headers "Vary" =
      (if (corsDecisionSpec origin ssr).2 then some "Origin" else none) := by
  by_cases h1 : ssr = true
  · have hspec : corsDecisionSpec origin ssr = (canonicalOrigin, false) := by
      unfold corsDecisionSpec
      rw [if_pos h1]
    simp only [handleOptions, hspec]
    rw [if_pos h1]
    refine ⟨?_, ?_⟩ <;> simp only [List.cons_append, List.nil_append]
    · rw [headerGet_cons, if_neg (by decide), headerGet_cons,
        if_neg (by decide), headerGet_cons, if_neg (by decide),
        headerGet_cons, if_pos (by decide)]
    · rw [headerGet_cons, if_neg (by decide), headerGet_cons,
        if_neg (by decide), headerGet_cons, if_neg (by decide),
        headerGet_cons, if_neg (by decide)]
      rfl
  · by_cases h2 : (decide (origin ≠ "") && isOriginAllowed origin) = true
    · have hspec : corsDecisionSpec origin ssr = (origin, true) := by
        unfold corsDecisionSpec
        rw [if_neg h1, if_pos h2]
      simp only [handleOptions, hspec]
      rw [if_neg h1, if_pos h2]
      refine ⟨?_, ?_⟩ <;> simp only [List.cons_append, List.nil_append]
      · rw [headerGet_cons, if_neg (by decide), headerGet_cons,
          if_neg (by decide), headerGet_cons, if_neg (by decide),
          headerGet_cons, if_pos (by decide)]
      · rw [headerGet_cons, if_neg (by decide), headerGet_cons,
          if_neg (by decide), headerGet_cons, if_neg (by decide),
          headerGet_cons, if_neg (by decide), headerGet_cons,
          if_pos (by decide)]
        simp
    · have hspec : corsDecisionSpec origin ssr = (canonicalOrigin, false) := by
        unfold corsDecisionSpec
        rw [if_neg h1, if_neg h2]
      simp only [handleOptions, hspec]
      rw [if_neg h1, if_neg h2]
      refine ⟨?_, ?_⟩ <;> simp only [List.cons_append, List.nil_append]
      · rw [headerGet_cons, if_neg (by decide), headerGet_cons,
          if_neg (by decide), headerGet_cons, if_neg (by decide),
          headerGet_cons, if_pos (by decide)]
      · rw [headerGet_cons, if_neg (by decide), headerGet_cons,
          if_neg (by decide), headerGet_cons, if_neg (by decide),
          headerGet_cons, if_neg (by decide)]
        rfl

theorem addCorsHeaders_decision (r : Resp) (origin : String) (ssr : Bool) :
    headerGet (addCorsHeaders r origin ssr).headers
      "Access-Control-Allow-Origin" = some (corsDecisionSpec origin ssr).1 ∧
    ((corsDecisionSpec origin ssr).2 = true →
      headerGet (addCorsHeaders r origin ssr).headers "Vary" =
        some "Origin") ∧
    ((corsDecisionSpec origin ssr).2 = false →
      headerGet (addCorsHeaders r origin ssr).headers "Vary" =
        headerGet r.headers "Vary") := by
  by_cases h1 : ssr = true
  · have hspec : corsDecisionSpec origin ssr = (canonicalOrigin, false) := by
      unfold corsDecisionSpec
      rw [if_pos h1]
    have hsrc : (ssr || decide (origin = "") || !isOriginAllowed origin)
        = true := by simp [h1]
    simp only [addCorsHeaders, hspec]
    rw [if_pos hsrc]
    refine ⟨?_, ?_, ?_⟩
    · rw [headerGet_headerSet_ne _ "Access-Control-Max-Age" _
          "Access-Control-Allow-Origin" (by decide),
        headerGet_headerSet_ne _ "Access-Control-Allow-Headers" _
          "Access-Control-Allow-Origin" (by decide),
        headerGet_headerSet_ne _ "Access-Control-Allow-Methods" _
          "Access-Control-Allow-Origin" (by decide),
        headerGet_headerSet_self]
    · intro hx
      exact absurd hx (by decide)
    · intro _
      rw [headerGet_headerSet_ne _ "Access-Control-Max-Age" _
          "Vary" (by decide),
        headerGet_headerSet_ne _ "Access-Control-Allow-Headers" _
          "Vary" (by decide),
        headerGet_headerSet_ne _ "Access-Control-Allow-Methods" _
          "Vary" (by decide),
        headerGet_headerSet_ne _ "Access-Control-Allow-Origin" _
          "Vary" (by decide)]
  · by_cases h2 : (decide (origin ≠ "") && isOriginAllowed origin) = true
    · have hspec : corsDecisionSpec origin ssr = (origin, true) := by
        unfold corsDecisionSpec
        rw [if_neg h1, if_pos h2]
      simp only [Bool.and_eq_true, decide_eq_true_eq] at h2
      have h1' : ssr = false := by simpa using h1
      have hsrc : (ssr || decide (origin = "") || !isOriginAllowed origin)
          = false := by simp [h1', h2.1, h2.2]
      simp only [addCorsHeaders, hspec]
      rw [if_neg (by simp [hsrc])]
      refine ⟨?_, ?_, ?_⟩
      · rw [headerGet_headerSet_ne _ "Access-Control-Max-Age" _
            "Access-Control-Allow-Origin" (by decide),
          headerGet_headerSet_ne _ "Access-Control-Allow-Headers" _
            "Access-Control-Allow-Origin" (by decide),
          headerGet_headerSet_ne _ "Access-Control-Allow-Methods" _
            "Access-Control-Allow-Origin" (by decide),
          headerGet_headerSet_ne _ "Vary" _
            "Access-Control-Allow-Origin" (by decide),
          headerGet_headerSet_self]
      · intro _
        rw [headerGet_headerSet_ne _ "Access-Control-Max-Age" _
            "Vary" (by decide),
          headerGet_headerSet_ne _ "Access-Control-Allow-Headers" _
            "Vary" (by decide),
          headerGet_headerSet_ne _ "Access-Control-Allow-Methods" _
            "Vary" (by decide),
          headerGet_headerSet_self]
      · intro hx
        exact absurd hx (by decide)
    · have hspec : corsDecisionSpec origin ssr = (canonicalOrigin, false) := by
        unfold corsDecisionSpec
        rw [if_neg h1, if_neg h2]
      have hsrc : (ssr || decide (origin = "") || !isOriginAllowed origin)
          = true := by
        simp only [Bool.and_eq_true, decide_eq_true_eq, not_and] at h2
        by_cases ho : origin = ""
        · simp [ho]
        · have := h2 ho
          simp only [Bool.not_eq_true] at this ⊢
          simp [this]
      simp only [addCorsHeaders, hspec]
      rw [if_pos hsrc]
      refine ⟨?_, ?_, ?_⟩
      · rw [headerGet_headerSet_ne _ "Access-Control-Max-Age" _
            "Access-Control-Allow-Origin" (by decide),
          headerGet_headerSet_ne _ "Access-Control-Allow-Headers" _
            "Access-Control-Allow-Origin" (by decide),
          headerGet_headerSet_ne _ "Access-Control-Allow-Methods" _
            "Access-Control-Allow-Origin" (by decide),
          headerGet_headerSet_self]
      · intro hx
        exact absurd hx (by decide)
      · intro _
        rw [headerGet_headerSet_ne _ "Access-Control-Max-Age" _
            "Vary" (by decide),
          headerGet_headerSet_ne _ "Access-Control-Allow-Headers" _
            "Vary" (by decide),
          headerGet_headerSet_ne _ "Access-Control-Allow-Methods" _
            "Vary" (by decide),
          headerGet_headerSet_ne _ "Access-Control-Allow-Origin" _
            "Vary" (by decide)]

theorem addCorsHeaders_fixed (r : Resp) (origin : String) (ssr : Bool) :
    headerGet (addCorsHeaders r origin ssr).headers
      "Access-Control-Allow-Methods" = some corsAllowMethods ∧
    headerGet (addCorsHeaders r origin ssr).headers
      "Access-Control-Allow-Headers" = some corsAllowHeaders ∧
    headerGet (addCorsHeaders r origin ssr).headers
      "Access-Control-Max-Age" = some "86400" := by
  simp only [addCorsHeaders]
  split_ifs <;>
    exact ⟨by
        rw [headerGet_headerSet_ne _ "Access-Control-Max-Age" _
            "Access-Control-Allow-Methods" (by decide),
          headerGet_headerSet_ne _ "Access-Control-Allow-Headers" _
            "Access-Control-Allow-Methods" (by decide),
          headerGet_headerSet_self],
      by
        rw [headerGet_headerSet_ne _ "Access-Control-Max-Age" _
            "Access-Control-Allow-Headers" (by decide),
          headerGet_headerSet_self],
      headerGet_headerSet_self _ _ _⟩

theorem handleOptions_fixed (origin : String) (ssr : Bool) :
    headerGet (handleOptions origin ssr).headers
      "Access-Control-Allow-Methods" = some corsAllowMethods ∧
    headerGet (handleOptions origin ssr).headers
      "Access-Control-Allow-Headers" = some corsAllowHeaders ∧
    headerGet (handleOptions origin ssr).headers
      "Access-Control-Max-Age" = some "86400" := by
  simp only [handleOptions]
  split_ifs <;>
    refine ⟨?_, ?_, ?_⟩ <;> simp only [List.cons_append, List.nil_append]
  all_goals
    first
    | rw [headerGet_cons, if_pos (by decide)]
    | rw [headerGet_cons, if_neg (by decide), headerGet_cons,
        if_pos (by decide)]
    | rw [headerGet_cons, if_neg (by decide), headerGet_cons,
        if_neg (by decide), headerGet_cons, if_pos (by decide)]

theorem workerDispatchCache_response (req : WorkerRequest) (env : Env)
    (cache : List (String × Resp)) (upstream : Upstream) :
    ∃ inner, (workerDispatchCache req env cache upstream).response =
      addCorsHeaders inner (originOf req) (ssrOf req) := by
  unfold workerDispatchCache
  rcases hc : (cacheKeyUrlOf req env).bind
      (fun k => (cache.find? (fun e => e.1 = k)).map (fun e => e.2)) with
    _ | r
  · simp only [hc]
    exact ⟨_, rfl⟩
  · simp only [hc]
    exact ⟨r, rfl⟩

/-! ### Concrete fixtures used by witnesses and counterexamples -/

def sampleEnv : Env :=
  { ALGOLIA_APPLICATION_ID := "APP"
    ALGOLIA_API_KEY := "KEY"
    CACHE_TTL_SSR := none
    CACHE_TTL_CLIENT := none }

def okUpstream : Upstream := fun _ => .resp 200 "body"

def okResp : Resp := { status := 200, body := .raw "ok", headers := [] }

def optionsReq : WorkerRequest :=
  { urlBase := "https://example.com/1/indexes/products/queries"
    pathname := "/1/indexes/products/queries"
    params := []
    method := "OPTIONS"
    headers := [("Origin", "https://shop.avocadostore.de")]
    body := .jsonBody none }

def validPostReq : WorkerRequest :=
  { urlBase := "https://example.com/1/indexes/products/queries"
    pathname := "/1/indexes/products/queries"
    params := [("cacheKey", "tok")]
    method := "POST"
    headers := [("Origin", "https://shop.avocadostore.de"),
                ("x-ssr-request", "ASDf928gh2efhajsdf!!")]
    body := .jsonBody (some [{ query := .str "schok" }]) }

def invalidCharsReq : WorkerRequest :=
  { urlBase := "https://example.com/1/indexes/products/queries"
    pathname := "/1/indexes/products/queries"
    params := []
    method := "POST"
    headers := [("Origin", "https://shop.avocadostore.de")]
    body := .jsonBody (some [{ query := .str "a\x00b" }]) }

def malformedReq : WorkerRequest :=
  { urlBase := "https://example.com/1/indexes/products/queries"
    pathname := "/1/indexes/products/queries"
    params := []
    method := "POST"
    headers := [("Origin", "https://shop.avocadostore.de")]
    body := .malformed "Unexpected token" }

/-! ### Claims C1 and C7 -/

theorem workerFetch_validation_ok (req : WorkerRequest) (env : Env)
    (cache : List (String × Resp)) (upstream : Upstream)
    (hopt : req.method ≠ "OPTIONS") (hval : validationFails req = false) :
    workerFetch req env cache upstream =
      workerDispatchCache req env cache upstream := by
  unfold workerFetch
  rw [if_neg hopt]
  by_cases hpost : req.method = "POST"
  · rw [if_pos hpost]
    cases hp : parseRequestBody req.body with
    | error e =>
      exfalso
      unfold validationFails at hval
      rw [hp] at hval
      simp [hpost] at hval
    | ok b => rfl
  · rw [if_neg hpost]

/-- C1 counterexample.  A POST whose body fails validation (here: a query
containing the NUL character) is answered 400 with no CORS headers at all:
the handler returns the validator's response before `addCorsHeaders`
runs. -/
theorem cors_headers_missing_on_validation_failure :
    (workerFetch invalidCharsReq sampleEnv [] okUpstream).response.status
      = 400 ∧
    headerGet (workerFetch invalidCharsReq sampleEnv []
      okUpstream).response.headers "Access-Control-Allow-Origin" = none ∧
    headerGet (workerFetch invalidCharsReq sampleEnv []
      okUpstream).response.headers "Access-Control-Allow-Methods" = none ∧
    headerGet (workerFetch invalidCharsReq sampleEnv []
      okUpstream).response.headers "Access-Control-Allow-Headers" = none ∧
    headerGet (workerFetch invalidCharsReq sampleEnv []
      okUpstream).response.headers "Access-Control-Max-Age" = none := by
  decide

/-- C1 (amended).  Every response except a validation-failure 400 carries
the full CORS header set: OPTIONS responses, upstream responses, 502
failures and cache hits all pass through the origin decision plus the
three fixed headers; the 400 path alone bypasses it. -/
theorem cors_headers_on_all_paths (req : WorkerRequest) (env : Env)
    (cache : List (String × Resp)) (upstream : Upstream)
    (h : req.method = "OPTIONS" ∨ validationFails req = false) :
    (∃ v, headerGet (workerFetch req env cache upstream).response.headers
      "Access-Control-Allow-Origin" = some v) ∧
    headerGet (workerFetch req env cache upstream).response.headers
      "Access-Control-Allow-Methods" = some corsAllowMethods ∧
    headerGet (workerFetch req env cache upstream).response.headers
      "Access-Control-Allow-Headers" = some corsAllowHeaders ∧
    headerGet (workerFetch req env cache upstream).response.headers
      "Access-Control-Max-Age" = some "86400" := by
  by_cases hopt : req.method = "OPTIONS"
  · unfold workerFetch
    rw [if_pos hopt]
    exact ⟨⟨_, (handleOptions_decision _ _).1⟩, handleOptions_fixed _ _⟩
  · rcases h with h | hval
    · exact absurd h hopt
    rw [workerFetch_validation_ok req env cache upstream hopt hval]
    obtain ⟨inner, hin⟩ := workerDispatchCache_response req env cache upstream
    rw [hin]
    exact ⟨⟨_, (addCorsHeaders_decision _ _ _).1⟩, addCorsHeaders_fixed _ _ _⟩

/-- Concrete instance of `cors_headers_on_all_paths`: a validated POST
response carries the fixed preflight-cache header. -/
theorem cors_headers_on_all_paths_witness :
    validationFails validPostReq = false ∧
    headerGet (workerFetch validPostReq sampleEnv []
      okUpstream).response.headers "Access-Control-Max-Age" =
        some "86400" :=
  ⟨by decide,
   (cors_headers_on_all_paths validPostReq sampleEnv [] okUpstream
     (Or.inr (by decide))).2.2.2⟩

/-- C7 counterexample.  The origin decision is not applied to every actual
response: a malformed-JSON POST is answered 400 without any
`Access-Control-Allow-Origin` header, bypassing the decision entirely. -/
theorem origin_decision_skipped_on_parse_error :
    (workerFetch malformedReq sampleEnv [] okUpstream).response.status
      = 400 ∧
    headerGet (workerFetch malformedReq sampleEnv []
      okUpstream).response.headers "Access-Control-Allow-Origin" = none := by
  decide

/-- C7 (amended).  The origin decision — canonical origin for SSR, echo
plus `Vary: Origin` for a present allow-listed origin, canonical origin
without setting `Vary` otherwise — is computed by `handleOptions` and
`addCorsHeaders` alike, and the pipeline routes every OPTIONS response
through the former and every response that passes validation (upstream
results, 502 failures and cache hits) through the latter; only
validation-failure 400 responses bypass it. -/
theorem cors_decision_uniform (origin : String) (ssr : Bool) (r : Resp)
    (req : WorkerRequest) (env : Env) (cache : List (String × Resp))
    (upstream : Upstream) :
    (headerGet (handleOptions origin ssr).headers
      "Access-Control-Allow-Origin" = some (corsDecisionSpec origin ssr).1) ∧
    (headerGet (handleOptions origin ssr).headers "Vary" =
      (if (corsDecisionSpec origin ssr).2 then some "Origin" else none)) ∧
    (headerGet (addCorsHeaders r origin ssr).headers
      "Access-Control-Allow-Origin" = some (corsDecisionSpec origin ssr).1) ∧
    ((corsDecisionSpec origin ssr).2 = true →
      headerGet (addCorsHeaders r origin ssr).headers "Vary" =
        some "Origin") ∧
    ((corsDecisionSpec origin ssr).2 = false →
      headerGet (addCorsHeaders r origin ssr).headers "Vary" =
        headerGet r.headers "Vary") ∧
    (req.method = "OPTIONS" →
      (workerFetch req env cache upstream).response =
        handleOptions (originOf req) (ssrOf req)) ∧
    (req.method ≠ "OPTIONS" → validationFails req = false →
      ∃ inner, (workerFetch req env cache upstream).response =
        addCorsHeaders inner (originOf req) (ssrOf req)) := by
  refine ⟨(handleOptions_decision origin ssr).1,
    (handleOptions_decision origin ssr).2,
    (addCorsHeaders_decision r origin ssr).1,
    (addCorsHeaders_decision r origin ssr).2.1,
    (addCorsHeaders_decision r origin ssr).2.2, ?_, ?_⟩
  · intro hopt
    unfold workerFetch
    rw [if_pos hopt]
  · intro hopt hval
    rw [workerFetch_validation_ok req env cache upstream hopt hval]
    exact workerDispatchCache_response req env cache upstream

/-- Concrete instances of `cors_decision_uniform`: the echoed-origin
decision on an allow-listed origin, the OPTIONS route, and the
dispatch/cache route. -/
theorem cors_decision_uniform_witness :
    headerGet (addCorsHeaders okResp
      "https://shop.avocadostore.de" false).headers
      "Vary" = some "Origin" ∧
    (workerFetch optionsReq sampleEnv [] okUpstream).response =
      handleOptions (originOf optionsReq) (ssrOf optionsReq) ∧
    (∃ inner, (workerFetch validPostReq sampleEnv [] okUpstream).response =
      addCorsHeaders inner (originOf validPostReq) (ssrOf validPostReq)) := by
  refine ⟨?_, ?_, ?_⟩
  · exact (cors_decision_uniform "https://shop.avocadostore.de" false
      okResp optionsReq sampleEnv [] okUpstream).2.2.2.1 (by decide)
  · exact (cors_decision_uniform "x" false
      okResp optionsReq sampleEnv [] okUpstream).2.2.2.2.2.1 rfl
  · exact (cors_decision_uniform "x" false
      okResp validPostReq sampleEnv [] okUpstream).2.2.2.2.2.2
      (by decide) (by decide)

/-! ### Claims C4 and C5 (cache gating) -/

theorem cacheKeyUrlOf_ne_none (req : WorkerRequest) (env : Env)
    (h : cacheKeyUrlOf req env ≠ none) :
    req.method = "POST" ∧
    truthyOpt (cacheKeyParamOf req.params req.headers) = true ∧
    (ssrOf req = true ∨ 0 < cacheTtlClientOf env) := by
  unfold cacheKeyUrlOf at h
  by_cases hg : (req.method = "POST" &&
      truthyOpt (cacheKeyParamOf req.params req.headers) &&
      shouldCacheOf req env) = true
  · have hg' := hg
    simp only [Bool.and_eq_true, decide_eq_true_eq] at hg'
    obtain ⟨⟨h1, h2⟩, h3⟩ := hg'
    refine ⟨h1, h2, ?_⟩
    unfold shouldCacheOf at h3
    simpa [Bool.or_eq_true, decide_eq_true_eq] using h3
  · rw [if_neg hg] at h
    exact absurd rfl h

theorem workerFetch_cacheops_need_key (req : WorkerRequest) (env : Env)
    (cache : List (String × Resp)) (upstream : Upstream)
    (h : (workerFetch req env cache upstream).cacheLookup ≠ none ∨
      (workerFetch req env cache upstream).cachePut ≠ none) :
    cacheKeyUrlOf req env ≠ none := by
  by_cases hopt : req.method = "OPTIONS"
  · unfold workerFetch at h
    rw [if_pos hopt] at h
    simp at h
  · unfold workerFetch at h
    rw [if_neg hopt] at h
    cases hp : (if req.method = "POST" then parseRequestBody req.body
        else Except.ok none) with
    | error e =>
      rw [hp] at h
      simp at h
    | ok b =>
      rw [hp] at h
      unfold workerDispatchCache at h
      rcases hc : (cacheKeyUrlOf req env).bind
          (fun k => (cache.find? (fun e => e.1 = k)).map (fun e => e.2))
        with _ | r
      · simp only [hc] at h
        rcases h with h | h
        · exact h
        · cases hku : cacheKeyUrlOf req env with
          | none => simp [hku] at h
          | some k => simp [hku]
      · cases hku : cacheKeyUrlOf req env with
        | none =>
          rw [hku] at hc
          simp at hc
        | some k => simp [hku]

/-- C4.  Cache lookup and store run only for POST requests that carry a
(truthy) cache token and are cache-eligible: SSR-flagged, or non-SSR with
a positive configured client TTL.  In particular a non-SSR request with a
zero client TTL, or any request without a token, neither consults nor
populates the cache. -/
theorem cache_only_for_eligible_posts (req : WorkerRequest) (env : Env)
    (cache : List (String × Resp)) (upstream : Upstream)
    (h : (workerFetch req env cache upstream).cacheLookup ≠ none ∨
      (workerFetch req env cache upstream).cachePut ≠ none) :
    req.method = "POST" ∧
    truthyOpt (cacheKeyParamOf req.params req.headers) = true ∧
    (ssrOf req = true ∨ 0 < cacheTtlClientOf env) :=
  cacheKeyUrlOf_ne_none req env
    (workerFetch_cacheops_need_key req env cache upstream h)

/-- Concrete instance of `cache_only_for_eligible_posts`: an SSR POST with
a token consults the cache, and indeed is an eligible POST. -/
theorem cache_only_for_eligible_posts_witness :
    (workerFetch validPostReq sampleEnv [] okUpstream).cacheLookup ≠
      none ∧
    (validPostReq.method = "POST" ∧
      truthyOpt (cacheKeyParamOf validPostReq.params validPostReq.headers)
        = true ∧
      (ssrOf validPostReq = true ∨ 0 < cacheTtlClientOf sampleEnv)) :=
  ⟨by decide,
   cache_only_for_eligible_posts validPostReq sampleEnv [] okUpstream
     (Or.inl (by decide))⟩

/-- C5.  A `cache.put` happens only on a cache miss and only after an
upstream response with a success status: the stored response is the
dispatched upstream response (with its `Cache-Control` rewritten), its
status is in the success range, and a thrown network error (which yields
a non-success 502) is never stored. -/
theorem store_only_success_on_miss (req : WorkerRequest) (env : Env)
    (cache : List (String × Resp)) (upstream : Upstream) (k : String)
    (r : Resp)
    (h : (workerFetch req env cache upstream).cachePut = some (k, r)) :
    (workerFetch req env cache upstream).cacheHit = false ∧
    (workerFetch req env cache upstream).cacheLookup = some k ∧
    r.ok = true ∧
    r.status = (fetchFromAlgolia upstream req.pathname req.params env).status ∧
    (fetchFromAlgolia upstream req.pathname req.params env).ok = true := by
  by_cases hopt : req.method = "OPTIONS"
  · unfold workerFetch at h
    rw [if_pos hopt] at h
    simp at h
  · cases hp : (if req.method = "POST" then parseRequestBody req.body
        else Except.ok none) with
    | error e =>
      unfold workerFetch at h
      rw [if_neg hopt, hp] at h
      simp at h
    | ok b =>
      have hwf : workerFetch req env cache upstream =
          workerDispatchCache req env cache upstream := by
        unfold workerFetch
        rw [if_neg hopt, hp]
      rw [hwf] at h ⊢
      unfold workerDispatchCache at h ⊢
      rcases hc : (cacheKeyUrlOf req env).bind
          (fun k => (cache.find? (fun e => e.1 = k)).map (fun e => e.2))
        with _ | cr
      · simp only [hc] at h ⊢
        cases hku : cacheKeyUrlOf req env with
        | none => simp [hku] at h
        | some k' =>
          simp only [hku] at h ⊢
          by_cases hok : ((fetchFromAlgolia upstream req.pathname
              req.params env).ok && shouldCacheOf req env) = true
          · rw [if_pos hok] at h
            have hkk : k' = k ∧ respToCache
                (fetchFromAlgolia upstream req.pathname req.params env)
                env (ssrOf req) = r := by
              simpa using h
            obtain ⟨hk1, hk2⟩ := hkk
            have hokup : (fetchFromAlgolia upstream req.pathname
                req.params env).ok = true := by
              have hok' := hok
              simp only [Bool.and_eq_true] at hok'
              exact hok'.1
            exact ⟨by simp, by simp [hk1], by rw [← hk2]; exact hokup,
              by rw [← hk2]; rfl, hokup⟩
          · rw [if_neg hok] at h
            simp at h
      · simp only [hc] at h
        simp at h

/-- Concrete instance of `store_only_success_on_miss`: the SSR POST with
token `tok` stores the upstream 200 under its synthesized key with the
rewritten `Cache-Control`. -/
theorem store_only_success_on_miss_witness :
    (workerFetch validPostReq sampleEnv [] okUpstream).cachePut =
      some ("https://example.com/1/indexes/products/queries?cacheKey=tok&ssr=1",
        ⟨200, .raw "body", [("Cache-Control", "public, max-age=600")]⟩) ∧
    (workerFetch validPostReq sampleEnv [] okUpstream).cacheHit = false ∧
    (workerFetch validPostReq sampleEnv [] okUpstream).cacheLookup =
      some "https://example.com/1/indexes/products/queries?cacheKey=tok&ssr=1" ∧
    Resp.ok ⟨200, .raw "body",
      [("Cache-Control", "public, max-age=600")]⟩ = true ∧
    (200 : Nat) = (fetchFromAlgolia okUpstream validPostReq.pathname
      validPostReq.params sampleEnv).status ∧
    (fetchFromAlgolia okUpstream validPostReq.pathname validPostReq.params
      sampleEnv).ok = true :=
  ⟨by decide,
   store_only_success_on_miss validPostReq sampleEnv [] okUpstream
     "https://example.com/1/indexes/products/queries?cacheKey=tok&ssr=1"
     ⟨200, .raw "body", [("Cache-Control", "public, max-age=600")]⟩
     (by decide)⟩

/-! ### Claim C8 (analytics credential parameters) -/

theorem paramsGet_paramsDelete_ne (k k' : String) (h : k' ≠ k)
    (ps : Params) :
    paramsGet (paramsDelete k ps) k' = paramsGet ps k' :=
  paramsGet_filter_ne k k' h ps

/-- C8 counterexample.  A caller-supplied credential duplicate in a casing
other than the one the source deletes (here all-uppercase) survives into
the forwarded `/1/events` parameters, so the forwarded URL does not carry
credential parameters under lowercase names only. -/
theorem insights_keeps_uppercase_duplicates :
    ("X-ALGOLIA-API-KEY", "caller-key") ∈
      insightsParams [("X-ALGOLIA-API-KEY", "caller-key")] sampleEnv ∧
    lowerStr "X-ALGOLIA-API-KEY" = lowerStr "x-algolia-api-key" ∧
    "X-ALGOLIA-API-KEY" ≠ "x-algolia-api-key" := by
  decide

/-- C8 (amended).  The forwarded `/1/events` parameters always carry the
credentials under the lowercase names `x-algolia-api-key` and
`x-algolia-application-id`, and the exactly-spelled duplicates
`X-Algolia-Application-Id` and `X-Algolia-API-Key` (the casings known
insights clients send) are removed; duplicates under any other casing are
left in place. -/
theorem insights_credential_params (searchParams : Params) (env : Env) :
    paramsGet (insightsParams searchParams env) "x-algolia-api-key" =
      some env.ALGOLIA_API_KEY ∧
    paramsGet (insightsParams searchParams env) "x-algolia-application-id" =
      some env.ALGOLIA_APPLICATION_ID ∧
    ∀ p ∈ insightsParams searchParams env,
      p.1 ≠ "X-Algolia-Application-Id" ∧ p.1 ≠ "X-Algolia-API-Key" := by
  unfold insightsParams credParams
  refine ⟨?_, ?_, ?_⟩
  · rw [paramsGet_paramsDelete_ne "X-Algolia-API-Key" "x-algolia-api-key"
        (by decide),
      paramsGet_paramsDelete_ne "X-Algolia-Application-Id"
        "x-algolia-api-key" (by decide),
      paramsGet_paramsSet_ne "X-Algolia-Agent" "x-algolia-api-key" _
        (by decide),
      paramsGet_paramsSet_ne "x-algolia-application-id" "x-algolia-api-key"
        _ (by decide),
      paramsGet_paramsSet_self]
  · rw [paramsGet_paramsDelete_ne "X-Algolia-API-Key"
        "x-algolia-application-id" (by decide),
      paramsGet_paramsDelete_ne "X-Algolia-Application-Id"
        "x-algolia-application-id" (by decide),
      paramsGet_paramsSet_ne "X-Algolia-Agent" "x-algolia-application-id"
        _ (by decide),
      paramsGet_paramsSet_self]
  · intro p hp
    simp only [paramsDelete, List.mem_filter, decide_eq_true_eq] at hp
    exact ⟨hp.1.2, hp.2⟩

/-- Concrete instance of `insights_credential_params` at a request that
supplies the to-be-deleted duplicate spelling. -/
theorem insights_credential_params_witness :
    paramsGet (insightsParams [("X-Algolia-API-Key", "dup")] sampleEnv)
      "x-algolia-api-key" = some "KEY" ∧
    (("x-algolia-api-key", "KEY").1 ≠ "X-Algolia-Application-Id" ∧
      ("x-algolia-api-key", "KEY").1 ≠ "X-Algolia-API-Key") :=
  ⟨(insights_credential_params [("X-Algolia-API-Key", "dup")] sampleEnv).1,
   (insights_credential_params [("X-Algolia-API-Key", "dup")]
     sampleEnv).2.2 ("x-algolia-api-key", "KEY") (by decide)⟩

/-! ### Claim C2 (search host failover) -/

/-- Whether one upstream URL answers with a success status. -/
def upstreamOk (upstream : Upstream) (url : String) : Bool :=
  match upstream url with
  | .resp s _ => 200 ≤ s && s ≤ 299
  | .thrown _ => false

/-- The attempt record one host contributes, as the loop builds it. -/
def attemptFor (upstream : Upstream) (pathname search host : String) :
    HostAttempt :=
  match upstream ("https://" ++ host ++ pathname ++ search) with
  | .resp status body =>
    let ok := 200 ≤ status && status ≤ 299
    { host := host
      status := some status
      error := if ok then none else some body
      ok := some ok }
  | .thrown e =>
    { host := host, status := none, error := some e, ok := none }

theorem attemptFor_host (upstream : Upstream)
    (pathname search host : String) :
    (attemptFor upstream pathname search host).host = host := by
  unfold attemptFor
  cases upstream ("https://" ++ host ++ pathname ++ search) <;> rfl

theorem tryAlgoliaHostsGo_step_fail (upstream : Upstream)
    (pathname search host : String) (hosts : List String)
    (attempts : List HostAttempt)
    (hfail : upstreamOk upstream ("https://" ++ host ++ pathname ++ search)
      = false) :
    tryAlgoliaHostsGo upstream pathname search attempts (host :: hosts) =
      tryAlgoliaHostsGo upstream pathname search
        (attempts ++ [attemptFor upstream pathname search host]) hosts := by
  unfold upstreamOk at hfail
  cases hu : upstream ("https://" ++ host ++ pathname ++ search) with
  | resp s b =>
    have hf : (decide (200 ≤ s) && decide (s ≤ 299)) = false := by
      simp only [hu] at hfail
      exact hfail
    rw [tryAlgoliaHostsGo]
    simp only [hu, hf, Bool.false_eq_true, if_false, attemptFor]
  | thrown e =>
    rw [tryAlgoliaHostsGo]
    simp only [hu, attemptFor]

theorem tryAlgoliaHostsGo_spec (upstream : Upstream)
    (pathname search : String) :
    ∀ (hosts : List String) (attempts : List HostAttempt),
    (match hosts.dropWhile (fun h =>
        !upstreamOk upstream ("https://" ++ h ++ pathname ++ search)) with
     | [] =>
       tryAlgoliaHostsGo upstream pathname search attempts hosts =
         (allFailedResp
            (attempts ++ hosts.map (attemptFor upstream pathname search)),
          attempts ++ hosts.map (attemptFor upstream pathname search))
     | h :: _ =>
       ∃ s b, upstream ("https://" ++ h ++ pathname ++ search) = .resp s b ∧
         (200 ≤ s && s ≤ 299) = true ∧
         tryAlgoliaHostsGo upstream pathname search attempts hosts =
           ({ status := s, body := .raw b, headers := [] },
            attempts ++
              (hosts.takeWhile (fun h => !upstreamOk upstream
                ("https://" ++ h ++ pathname ++ search))).map
                  (attemptFor upstream pathname search) ++
              [attemptFor upstream pathname search h])) := by
  intro hosts
  induction hosts with
  | nil =>
    intro attempts
    simp [tryAlgoliaHostsGo]
  | cons hh hs ih =>
    intro attempts
    by_cases hok : upstreamOk upstream
        ("https://" ++ hh ++ pathname ++ search) = true
    · have hbp : (!upstreamOk upstream
          ("https://" ++ hh ++ pathname ++ search)) = false := by
        simp [hok]
      rw [List.dropWhile_cons]
      simp only [hbp, Bool.false_eq_true, if_false]
      unfold upstreamOk at hok
      cases hu : upstream ("https://" ++ hh ++ pathname ++ search) with
      | resp s b =>
        simp only [hu] at hok
        refine ⟨s, b, rfl, hok, ?_⟩
        rw [tryAlgoliaHostsGo]
        rw [List.takeWhile_cons]
        simp only [hu, hok, if_true, hbp, Bool.false_eq_true, if_false,
          List.map_nil, List.append_nil, attemptFor]
      | thrown e =>
        simp only [hu] at hok
        exact absurd hok (by decide)
    · have hfail : upstreamOk upstream
          ("https://" ++ hh ++ pathname ++ search) = false := by
        simpa using hok
      have hbp : (!upstreamOk upstream
          ("https://" ++ hh ++ pathname ++ search)) = true := by
        simp [hfail]
      rw [List.dropWhile_cons]
      simp only [hbp, if_true]
      rw [tryAlgoliaHostsGo_step_fail upstream pathname search hh hs
        attempts hfail]
      have ihh := ih (attempts ++ [attemptFor upstream pathname search hh])
      rcases hd : hs.dropWhile (fun h =>
          !upstreamOk upstream ("https://" ++ h ++ pathname ++ search)) with
        _ | ⟨h1, t⟩
      · rw [hd] at ihh
        rw [ihh]
        simp [List.append_assoc]
      · rw [hd] at ihh
        obtain ⟨s, b, hu, hok1, heq⟩ := ihh
        refine ⟨s, b, hu, hok1, ?_⟩
        rw [heq]
        rw [List.takeWhile_cons]
        simp only [hbp, if_true]
        simp [List.append_assoc]

set_option maxRecDepth 8000 in
/-- C2 counterexample.  When every host throws, the aggregate `details`
string lists the bare host names only: the recorded per-host error
(`econnrefused` here) does not appear in it, and no status does either,
so `details` does not pair every attempted host with its status or
error. -/
theorem failover_details_omit_errors :
    (tryAlgoliaHosts (fun _ => .thrown "econnrefused") "/p" "?q"
      (getHosts "APP")).2.map (fun a => a.error) =
        [some "econnrefused", some "econnrefused", some "econnrefused",
         some "econnrefused"] ∧
    (tryAlgoliaHosts (fun _ => .thrown "econnrefused") "/p" "?q"
      (getHosts "APP")).1.body =
        .errJson "All Algolia hosts failed" "algolia"
          (some ("Tried 4 host(s): APP-dsn.algolia.net, " ++
            "APP-1.algolianet.com, APP-2.algolianet.com, " ++
            "APP-3.algolianet.com")) ∧
    ¬ ("econnrefused".data <:+:
        ("Tried 4 host(s): APP-dsn.algolia.net, " ++
          "APP-1.algolianet.com, APP-2.algolianet.com, " ++
          "APP-3.algolianet.com").data) := by
  refine ⟨by decide, by decide, by decide⟩

/-- C2 (amended).  The search dispatcher derives exactly the four fixed
hosts from the application id and tries them in order: the hosts before
the first success are attempted (recorded) and each non-success response
or thrown error moves to the next host; the first success response is
returned at once, with no later host contacted; if all four fail the
result is a 502 whose JSON body has `errorType` `algolia` and whose
`details` string is built from every attempted host (annotated with its
status when the host responded; errored hosts appear by name only). -/
theorem search_failover (appId pathname search : String)
    (upstream : Upstream) :
    getHosts appId =
      [appId ++ "-dsn.algolia.net", appId ++ "-1.algolianet.com",
       appId ++ "-2.algolianet.com", appId ++ "-3.algolianet.com"] ∧
    (match (getHosts appId).dropWhile (fun h =>
        !upstreamOk upstream ("https://" ++ h ++ pathname ++ search)) with
     | [] =>
       (tryAlgoliaHosts upstream pathname search (getHosts appId)).2.map
           (fun a => a.host) = getHosts appId ∧
       (tryAlgoliaHosts upstream pathname search (getHosts appId)).1.status
           = 502 ∧
       (tryAlgoliaHosts upstream pathname search (getHosts appId)).1.body =
         .errJson "All Algolia hosts failed" "algolia"
           (some (allFailedDetails
             (tryAlgoliaHosts upstream pathname search (getHosts appId)).2))
     | h :: _ =>
       ∃ s b, upstream ("https://" ++ h ++ pathname ++ search) = .resp s b ∧
         (200 ≤ s && s ≤ 299) = true ∧
         (tryAlgoliaHosts upstream pathname search (getHosts appId)).1 =
           { status := s, body := .raw b, headers := [] } ∧
         (tryAlgoliaHosts upstream pathname search (getHosts appId)).2.map
             (fun a => a.host) =
           ((getHosts appId).takeWhile (fun h => !upstreamOk upstream
             ("https://" ++ h ++ pathname ++ search))) ++ [h]) := by
  refine ⟨rfl, ?_⟩
  have hspec := tryAlgoliaHostsGo_spec upstream pathname search
    (getHosts appId) []
  rcases hd : (getHosts appId).dropWhile (fun h =>
      !upstreamOk upstream ("https://" ++ h ++ pathname ++ search)) with
    _ | ⟨h1, t⟩
  · rw [hd] at hspec
    unfold tryAlgoliaHosts
    rw [hspec]
    refine ⟨?_, rfl, rfl⟩
    simp [Function.comp_def, attemptFor_host]
  · rw [hd] at hspec
    obtain ⟨s, b, hu, hok, heq⟩ := hspec
    refine ⟨s, b, hu, hok, ?_, ?_⟩
    · unfold tryAlgoliaHosts
      rw [heq]
    · unfold tryAlgoliaHosts
      rw [heq]
      simp [Function.comp_def, attemptFor_host]

end SearchProxy
